import Mathlib

/-!
LMMS sample editor: edit model of `SampleEditor.cpp`

A shallow embedding of the event handlers and slots of `SampleEditor`
(`src/gui/editors/SampleEditor.cpp`, `include/SampleEditor.h`) that edit a
sample clip or drive the transport: the Delete key, the right-button split
("knife"), the left-button selection drag, the double-click reload, `reverse`,
`play`, `stop`, `record` and `recordAccompany`, the two zoom slots, and the
vertical scroll bar part of `resizeEvent`.

Conventions of the embedding:

* `int`, `tick_t`, `f_cnt_t` and `TimePos` values are `Int`; signed overflow is
  undefined behaviour in C++ and is not modelled.
* `Engine::framesPerTick` returns a `float`, taken as IEEE 754 binary32. A
  product or quotient with an `int` is computed as the program does: the `int`
  is converted to `float` (round to nearest, ties to even), the operation is
  rounded the same way, and the conversion of the result to an integer type
  truncates toward zero. The exponent range (overflow, subnormal numbers) and
  the values infinity and NaN are not modelled.
* A handler returns `none` when it dereferences `m_tco` while no clip is bound
  or when an `assert` fails.
* Calls on collaborators (track journal, buffer, clip, song, widget) and the
  assignments to `m_recording` are appended to a trace in program order.
* What a slot reads from the song and from the clip's track is passed in as a
  `Transport` value; the path returned by the file chooser is an argument.
* `SampleBuffer`, `SampleTCO` and `QScrollBar` are not part of the two source
  files; the operations used by the handlers are modelled and marked as such.
-/

namespace Lmms

/-! ## Engine -/

/-- Value of `Engine::framesPerTick(...)`, a `float` in the source: the number
`mantissa * 2 ^ exponent`. A `float` has `mantissa < 2 ^ 24`. -/
structure FramesPerTick where
  mantissa : Nat
  exponent : Int
deriving DecidableEq, Repr

/-! ### Arithmetic of `float`

A non-negative `float` is held as a pair `(m, e)` standing for `m * 2 ^ e`. -/

namespace Binary32

/-- Position of the highest set bit: the largest `k` with `2 ^ k <= n`, and 0
for `n = 0`. -/
def log2 (n : Nat) : Nat := go n n
where
  /-- Halves `n` until it is at most 1, at most `fuel` times. -/
  go : Nat → Nat → Nat
  | 0, _ => 0
  | fuel + 1, n => if n ≤ 1 then 0 else go fuel (n / 2) + 1

/-- Largest `k` with `2 ^ k <= num / den`, for positive `num` and `den`. -/
def log2Floor (num den : Nat) : Int :=
  let d : Int := (log2 num : Int) - (log2 den : Int)
  if d ≥ 0 then (if num ≥ den * 2 ^ d.toNat then d else d - 1)
  else (if num * 2 ^ (-d).toNat ≥ den then d else d - 1)

/-- The integer nearest to `num / den`; of two nearest integers the even
one. -/
def roundHalfEven (num den : Nat) : Nat :=
  if 2 * (num % den) > den ∨ (2 * (num % den) = den ∧ (num / den) % 2 = 1) then num / den + 1
  else num / den

/-- The `float` nearest to `num / den` (round to nearest, ties to even), for a
positive `den`: the quotient is scaled by the power of two that brings it into
`[2 ^ 23, 2 ^ 24)` and rounded to an integer, which keeps 24 significant
bits. -/
def round (num den : Nat) : Nat × Int :=
  let e : Int := log2Floor num den - 23
  if e ≥ 0 then (roundHalfEven num (den * 2 ^ e.toNat), e)
  else (roundHalfEven (num * 2 ^ (-e).toNat) den, e)

/-- Conversion of the non-negative `float` `m * 2 ^ e` to an integer type: the
fractional part is discarded. -/
def trunc (m : Nat) (e : Int) : Nat :=
  if e ≥ 0 then m * 2 ^ e.toNat else m / 2 ^ (-e).toNat

end Binary32

/-- The product `framesPerTick * ticks` passed where a frame count (`f_cnt_t`)
is expected (lines 268, 426 and 430): `ticks` is converted to `float`, the
`float` product is rounded, and the conversion to the integer type discards the
fractional part. The sign is that of `ticks`. -/
def FramesPerTick.frames (f : FramesPerTick) (ticks : Int) : Int :=
  let t := Binary32.round ticks.natAbs 1
  let p := Binary32.round (f.mantissa * t.1) 1
  let magnitude : Int := Binary32.trunc p.1 (p.2 + f.exponent + t.2)
  if ticks < 0 then -magnitude else magnitude

/-- The quotient `frames / framesPerTick` cast to `int` (line 385): `frames`
is converted to `float`, the `float` quotient is rounded, and the cast discards
the fractional part. The sign is that of `frames`; a zero `framesPerTick` is a
division by zero and is not modelled. -/
def FramesPerTick.ticks (f : FramesPerTick) (frames : Int) : Int :=
  let n := Binary32.round frames.natAbs 1
  let q := Binary32.round n.1 f.mantissa
  let magnitude : Int := Binary32.trunc q.1 (q.2 + n.2 - f.exponent)
  if frames < 0 then -magnitude else magnitude

/-- The parts of the global engine the handlers read:
`Engine::framesPerTick(sampleRate)` and `TimePos::ticksPerBar()`. -/
structure Engine where
  framesPerTick : Nat → FramesPerTick
  ticksPerBar : Int

/-! ## Sample buffer -/

/-- Sample data owned by a clip: the stored frames, the sample rate, the
playback-direction flag and the path of the loaded file. -/
structure SampleBuffer where
  data : List Int
  sampleRate : Nat
  reversed : Bool
  audioFile : String
deriving DecidableEq, Repr

namespace SampleBuffer

/-- Frame count `SampleBuffer::frames()`. -/
def frames (b : SampleBuffer) : Int := (b.data.length : Int)

/-- The range check shared by `trim` and `removeSection` (spec 4.1): the range
is invalid if `startFrame >= endFrame` or either bound exceeds the frame
count. -/
def invalidRange (b : SampleBuffer) (startFrame endFrame : Int) : Bool :=
  decide (startFrame ≥ endFrame) || decide (startFrame > b.frames) ||
    decide (endFrame > b.frames)

/-- Modelled from the spec: `SampleBuffer::trim` is not under src/. Spec 4.1:
discards all frames outside `[startFrame, endFrame)`; fails with `InvalidRange`
if `startFrame >= endFrame` or either bound exceeds `frameCount()`. Spec 7: the
failure is a silent no-op, the operation is skipped. -/
def trim (b : SampleBuffer) (startFrame endFrame : Int) : SampleBuffer :=
  if b.invalidRange startFrame endFrame then b
  else { b with data := (b.data.take endFrame.toNat).drop startFrame.toNat }

/-- Modelled from the spec: `SampleBuffer::removeSection` is not under src/.
Spec 4.1: deletes the frames in `[startFrame, endFrame)`, shifting subsequent
frames left; fails with `InvalidRange` under the same conditions as `trim`,
and the failure is a silent no-op. -/
def removeSection (b : SampleBuffer) (startFrame endFrame : Int) : SampleBuffer :=
  if b.invalidRange startFrame endFrame then b
  else { b with data := b.data.take startFrame.toNat ++ b.data.drop endFrame.toNat }

/-- Modelled from the spec: `SampleBuffer::setReversed` is not under src/. Spec
4.1: sets the playback-direction flag and does not mutate the stored
samples. -/
def setReversed (b : SampleBuffer) (reversed : Bool) : SampleBuffer :=
  { b with reversed := reversed }

end SampleBuffer

/-! ## Sample clip -/

/-- The clip (`SampleTCO`): position and length in ticks, the owned buffer and
the record flag. -/
structure SampleTCO where
  startPosition : Int
  length : Int
  sampleBuffer : SampleBuffer
  record : Bool
deriving DecidableEq, Repr

namespace SampleTCO

/-- Modelled from the spec: `SampleTCO::changeLength` is not under src/. Spec
4.3: the clip's `length` field is updated to the given number of ticks. -/
def changeLength (c : SampleTCO) (length : Int) : SampleTCO :=
  { c with length := length }

/-- Modelled from the spec: `TrackContentObject::movePosition` is not under
src/. Spec 3: `position` is the tick offset of the clip start on the track
timeline; spec 6: the clip exposes a setter for it. `movePosition` is that
setter: the clip starts at the `TimePos` it is given. -/
def movePosition (c : SampleTCO) (pos : Int) : SampleTCO :=
  { c with startPosition := pos }

/-- Modelled from the spec: `SampleTCO::setRecord` is not under src/. Spec 3
and 4.5: sets the clip's record flag. -/
def setRecord (c : SampleTCO) (record : Bool) : SampleTCO :=
  { c with record := record }

/-- Modelled from the spec: `SampleTCO::setSampleFile` is not under src/. Spec
4.3: reloading a different file replaces the buffer wholesale and recomputes
`length` from the new buffer's frame count. `loaded` is the buffer the file
loads to. -/
def setSampleFile (c : SampleTCO) (loaded : SampleBuffer) (framesPerTick : FramesPerTick) :
    SampleTCO :=
  { c with sampleBuffer := loaded, length := framesPerTick.ticks loaded.frames }

end SampleTCO

/-! ## Transport -/

/-- The container that owns the clip's track:
`m_tco->getTrack()->trackContainer()` is the song, the BB track container, or
another container. -/
inductive TrackContainer where
  | song
  | bbTrackContainer
  | other
deriving DecidableEq, Repr

/-- What the transport slots read from `Engine::getSong()` and from the clip's
track. The track of a bound clip is taken to exist. -/
structure Transport where
  isPlaying : Bool
  isStopped : Bool
  trackContainer : TrackContainer
deriving DecidableEq, Repr

/-! ## Widget state -/

/-- Modelled from Qt: the value and range of a `QScrollBar`. -/
structure QScrollBar where
  minimum : Int
  maximum : Int
  value : Int
deriving DecidableEq, Repr

/-- Modelled from Qt: `QAbstractSlider::setValue` bounds the new value by the
range of the slider. -/
def QScrollBar.setValue (s : QScrollBar) (v : Int) : QScrollBar :=
  { s with value := max s.minimum (min v s.maximum) }

/-- Modelled from Qt: `QAbstractSlider::setRange` stores the minimum, stores
the larger of the two bounds as the maximum, and bounds the value again. -/
def QScrollBar.setRange (s : QScrollBar) (min max : Int) : QScrollBar :=
  QScrollBar.setValue { s with minimum := min, maximum := Max.max min max } s.value

/-- The clip a call is made on: `m_tco` or the `rightTCO` created by a split. -/
inductive Clip where
  | current
  | right
deriving DecidableEq, Repr

/-- Calls the handlers make on their collaborators, and the assignments to
`m_recording`, in program order. -/
inductive Call where
  | addJournalCheckPoint
  | saveJournallingState (journalling : Bool)
  | restoreJournallingState
  | newSampleTCO
  | movePosition (clip : Clip) (pos : Int)
  | trim (clip : Clip) (startFrame endFrame : Int)
  | removeSection (startFrame endFrame : Int)
  | changeLength (clip : Clip) (length : Int)
  | updateTrackTcos
  | dataChanged (clip : Clip)
  | repaint
  | update
  | updatePosition
  | setReversed (reversed : Bool)
  | wasReversed
  | tcoAddJournalCheckPoint
  | setRecord (record : Bool)
  | m_recording (value : Bool)
  | playSample (monitor : Option Bool)
  | togglePause
  | songStop
  | bbStop
  | songRecord
  | playSong
  | playBB
  | setSampleFile (audioFile : String)
  | setModified
  | updateAfterTCOChange
  | nameChanged
  | setPixelsPerBar (ppb : Int)
  | positionChanged (pos : Int)
deriving DecidableEq, Repr

/-- The calls that belong to the journal of the clip's track. -/
def Call.isJournal : Call → Bool
  | .addJournalCheckPoint => true
  | .saveJournallingState _ => true
  | .restoreJournallingState => true
  | _ => false

/-- The calls that change the buffer or the length of a clip. -/
def Call.isMutation : Call → Bool
  | .trim _ _ _ => true
  | .removeSection _ _ => true
  | .changeLength _ _ => true
  | _ => false

/-- A trace of one journalled edit: it opens with one `addJournalCheckPoint`
and one `saveJournallingState(false)`, holds one `restoreJournallingState`,
has no other journal call, and has no mutation after the restore. -/
def Bracketed (cs : List Call) : Prop :=
  ∃ inner after,
    cs = .addJournalCheckPoint :: .saveJournallingState false ::
      (inner ++ .restoreJournallingState :: after) ∧
    (∀ c ∈ inner, c.isJournal = false) ∧
    (∀ c ∈ after, c.isJournal = false ∧ c.isMutation = false)

/-- The enum `SampleEditor::Actions`. -/
inductive Actions where
  | NONE
  | SELECT
  | KNIFE
deriving DecidableEq, Repr

/-- The keys `keyPressEvent` distinguishes; `Other` is the `default` case. -/
inductive Key where
  | Key_Up
  | Key_Delete
  | Key_Down
  | Key_Left
  | Key_Right
  | Key_Home
  | Other
deriving DecidableEq, Repr

/-- The button of a mouse event. -/
inductive MouseButton where
  | LeftButton
  | RightButton
  | NoButton
deriving DecidableEq, Repr

/-- The parts of a `QMouseEvent` the handlers read. -/
structure QMouseEvent where
  x : Int
  y : Int
  button : MouseButton
deriving DecidableEq, Repr

/-- The members of `SampleEditor` the handlers read or write (the combo box
models and the time line by their current value), the clips created by
splits, and the trace of calls. `m_tco = none` is the null pointer. -/
structure SampleEditor where
  m_tco : Option SampleTCO
  m_action : Actions
  m_mouseStartX : Int
  m_mouseCurrentX : Int
  m_selectionStart : Int
  m_selectionEnd : Int
  m_ppb : Int
  m_y_delta : Int
  m_y_auto : Bool
  m_currentPosition : Int
  m_mouseDownLeft : Bool
  m_mouseDownRight : Bool
  m_recording : Bool
  m_scrollBack : Bool
  m_leftRightScroll : QScrollBar
  m_topBottomScroll : QScrollBar
  m_zoomingXModel : Nat
  m_zoomingYModel : Nat
  timeLinePos : Int
  rightTCOs : List SampleTCO
  calls : List Call
deriving DecidableEq, Repr

namespace SampleEditor

/-- Constant `VALUES_WIDTH` of SampleEditor.h. -/
def VALUES_WIDTH : Int := 64

/-- Constant `TOP_MARGIN` of SampleEditor.h. -/
def TOP_MARGIN : Int := 16

/-- Constant `DEFAULT_STEPS_PER_BAR` of SampleEditor.h. -/
def DEFAULT_STEPS_PER_BAR : Int := 16

/-- Constant `DEFAULT_PPB` of SampleEditor.h. -/
def DEFAULT_PPB : Int := 12 * DEFAULT_STEPS_PER_BAR

/-- Appends a call to the trace. -/
def log (ed : SampleEditor) (c : Call) : SampleEditor :=
  { ed with calls := ed.calls ++ [c] }

/-- The function `validTCO()`. -/
def validTCO (ed : SampleEditor) : Bool := ed.m_tco.isSome

/-- The function `tickOfXCoord`:
`(x - VALUES_WIDTH * TimePos::ticksPerBar() / m_ppb) + m_currentPosition`
with C++ integer division. -/
def tickOfXCoord (env : Engine) (ed : SampleEditor) (x : Int) : Int :=
  (x - Int.tdiv (VALUES_WIDTH * env.ticksPerBar) ed.m_ppb) + ed.m_currentPosition

/-- Body of the guarded block of `case Qt::Key_Delete` (lines 265-272), for the
bound clip `tco`. -/
def deleteSelection (env : Engine) (ed : SampleEditor) (tco : SampleTCO) : SampleEditor :=
  let ed := ed.log .addJournalCheckPoint
  let ed := ed.log (.saveJournallingState false)
  let framesPerTick := env.framesPerTick tco.sampleBuffer.sampleRate
  let startFrame := framesPerTick.frames ed.m_selectionStart
  let endFrame := framesPerTick.frames ed.m_selectionEnd
  let tco := { tco with sampleBuffer := tco.sampleBuffer.removeSection startFrame endFrame }
  let ed := ed.log (.removeSection startFrame endFrame)
  let ed := ed.log .updateTrackTcos
  let length := tco.length - ed.m_selectionEnd + ed.m_selectionStart
  let tco := tco.changeLength length
  let ed := ed.log (.changeLength .current length)
  let ed := ed.log .restoreJournallingState
  let ed := ed.log .repaint
  { ed with m_tco := some tco }

/-- The `case Qt::Key_Down` block, which `case Qt::Key_Delete` falls through
to. -/
def keyDown (ed : SampleEditor) : SampleEditor :=
  { ed with m_topBottomScroll :=
      ed.m_topBottomScroll.setValue (ed.m_topBottomScroll.value + 1) }

/-- The handler `keyPressEvent`. -/
def keyPressEvent (env : Engine) (ed : SampleEditor) (key : Key) : Option SampleEditor :=
  match key with
  | .Key_Up =>
    some { ed with m_topBottomScroll :=
      ed.m_topBottomScroll.setValue (ed.m_topBottomScroll.value - 1) }
  | .Key_Delete =>
    match ed.m_tco with
    | none => none
    | some tco =>
      let ed :=
        if ed.m_selectionEnd > tco.length ∧ ed.m_selectionStart < tco.length then
          { ed with m_selectionEnd := tco.length }
        else ed
      let ed :=
        if ed.m_selectionEnd - ed.m_selectionStart > 0 ∧ ed.m_selectionEnd ≤ tco.length then
          deleteSelection env ed tco
        else ed
      some (keyDown ed)
  | .Key_Down => some (keyDown ed)
  | .Key_Left =>
    let pos := ed.timeLinePos - 16
    let pos := if pos < 0 then 0 else pos
    some ({ ed with timeLinePos := pos }.log .updatePosition)
  | .Key_Right =>
    some ({ ed with timeLinePos := ed.timeLinePos + 16 }.log .updatePosition)
  | .Key_Home =>
    some ({ ed with timeLinePos := 0 }.log .updatePosition)
  | .Other => some ed

/-- Body of the guarded block of the right-button branch of `mousePressEvent`
(lines 419-434), for the bound clip `tco` and the split tick `splitPos`. -/
def splitTCO (env : Engine) (ed : SampleEditor) (tco : SampleTCO) (splitPos : Int) :
    SampleEditor :=
  let ed := ed.log .addJournalCheckPoint
  let ed := ed.log (.saveJournallingState false)
  let rightTCO := tco
  let ed := ed.log .newSampleTCO
  let framesPerTick := env.framesPerTick tco.sampleBuffer.sampleRate
  let rightTCO := rightTCO.movePosition splitPos
  let ed := ed.log (.movePosition .right splitPos)
  let splitFrame := framesPerTick.frames splitPos
  let frames := tco.sampleBuffer.frames
  let rightTCO := { rightTCO with sampleBuffer := rightTCO.sampleBuffer.trim splitFrame frames }
  let ed := ed.log (.trim .right splitFrame frames)
  let rightTCO := rightTCO.changeLength (tco.length - splitPos)
  let ed := ed.log (.changeLength .right (tco.length - splitPos))
  let ed := ed.log (.dataChanged .right)
  let tco := { tco with sampleBuffer := tco.sampleBuffer.trim 0 splitFrame }
  let ed := ed.log (.trim .current 0 splitFrame)
  let tco := tco.changeLength splitPos
  let ed := ed.log (.changeLength .current splitPos)
  let ed := ed.log .updateTrackTcos
  let ed := ed.log (.dataChanged .current)
  let ed := ed.log .restoreJournallingState
  { ed with m_tco := some tco, rightTCOs := ed.rightTCOs ++ [rightTCO] }

/-- The right-button branch of `mousePressEvent` (lines 407-436). The guard
`splitPos > 0 && splitPos < m_tco->length()` reads the clip only when
`splitPos > 0`. -/
def knife (env : Engine) (ed : SampleEditor) (startTick : Int) : Option SampleEditor :=
  let ed := { ed with m_mouseDownRight := true }
  let splitPos := startTick
  if splitPos > 0 then
    match ed.m_tco with
    | none => none
    | some tco =>
      if splitPos < tco.length then some (splitTCO env ed tco splitPos) else some ed
  else some ed

/-- The last block of `mousePressEvent` (lines 442-448): a selection begins
when no action is in progress. The local `frameStart` is unused. -/
def beginSelection (ed : SampleEditor) (startTick : Int) : SampleEditor :=
  if ed.m_action = .NONE then
    { ed with m_action := .SELECT, m_selectionStart := startTick, m_selectionEnd := startTick }
  else ed

/-- The handler `mousePressEvent`. -/
def mousePressEvent (env : Engine) (ed : SampleEditor) (mouseEvent : QMouseEvent) :
    Option SampleEditor :=
  let ed := { ed with m_mouseStartX := mouseEvent.x }
  let startTick := ed.tickOfXCoord env ed.m_mouseStartX
  let ed :=
    if mouseEvent.button = .LeftButton then { ed with m_mouseDownLeft := true } else ed
  let afterKnife :=
    if mouseEvent.button = .RightButton then knife env ed startTick else some ed
  afterKnife.map fun ed => beginSelection ed startTick

/-- The handler `mouseReleaseEvent`. -/
def mouseReleaseEvent (ed : SampleEditor) (mouseEvent : QMouseEvent) : SampleEditor :=
  let mustRepaint := false
  let (ed, mustRepaint) :=
    if mouseEvent.button = .LeftButton then
      ({ ed with m_mouseDownLeft := false }, true)
    else (ed, mustRepaint)
  let (ed, mustRepaint) :=
    if mouseEvent.button = .RightButton then
      ({ ed with m_mouseDownRight := false }, true)
    else (ed, mustRepaint)
  let ed := { ed with m_action := .NONE }
  if mustRepaint then ed.log .repaint else ed

/-- The handler `mouseMoveEvent`; cursor shapes and the unused `level` are
left out. -/
def mouseMoveEvent (env : Engine) (ed : SampleEditor) (mouseEvent : QMouseEvent) :
    SampleEditor :=
  if !ed.validTCO then ed.log .update
  else
    let ed :=
      if mouseEvent.y > TOP_MARGIN then
        let x := mouseEvent.x
        let ed := { ed with m_mouseCurrentX := x }
        let posTicks := ed.tickOfXCoord env x
        match ed.m_action with
        | .SELECT =>
          if ed.m_mouseDownLeft then
            if x > ed.m_mouseStartX then { ed with m_selectionEnd := posTicks }
            else { ed with m_selectionStart := posTicks }
          else ed
        | _ => ed
      else ed
    ed.log .update

/-- A sequence of pointer moves handled one after the other. -/
def drag (env : Engine) (ed : SampleEditor) (moves : List QMouseEvent) : SampleEditor :=
  moves.foldl (mouseMoveEvent env) ed

/-- The state of a left-button selection drag: a clip is bound, the action is
`SELECT` and the left button is held. -/
def Dragging (ed : SampleEditor) : Prop :=
  ed.validTCO = true ∧ ed.m_action = .SELECT ∧ ed.m_mouseDownLeft = true

/-- The function `xCoordOfTick`:
`VALUES_WIDTH + ((tick - m_currentPosition) * m_ppb / TimePos::ticksPerBar())`
with C++ integer division. -/
def xCoordOfTick (env : Engine) (ed : SampleEditor) (tick : Int) : Int :=
  VALUES_WIDTH + Int.tdiv ((tick - ed.m_currentPosition) * ed.m_ppb) env.ticksPerBar

/-- The slot `reverse`. It reads `m_tco` without a validity check. -/
def reverse (ed : SampleEditor) : Option SampleEditor :=
  match ed.m_tco with
  | none => none
  | some tco =>
    let reversed := !tco.sampleBuffer.reversed
    let tco := { tco with sampleBuffer := tco.sampleBuffer.setReversed reversed }
    let ed := ed.log (.setReversed reversed)
    let ed := ed.log .updateTrackTcos
    let ed := ed.log .update
    let ed := ed.log .wasReversed
    some { ed with m_tco := some tco }

/-- The handler `mouseDoubleClickEvent`. `af` is the path returned by the file
chooser `openAudioFile()`, `framesPerTick` the value of
`Engine::framesPerTick()` and `loadFile` the buffer a path loads to. The
handler reads `m_tco` without a validity check. In the reload branch the
effect of `updateAfterTCOChange` on the scroll bars is left out. -/
def mouseDoubleClickEvent (framesPerTick : FramesPerTick) (loadFile : String → SampleBuffer)
    (ed : SampleEditor) (af : String) : Option SampleEditor :=
  match ed.m_tco with
  | none => none
  | some tco =>
    if af.isEmpty then some ed
    else if af = tco.sampleBuffer.audioFile then
      let length := framesPerTick.ticks tco.sampleBuffer.frames
      let tco := tco.changeLength length
      let ed := ed.log (.changeLength .current length)
      let ed := ed.log .update
      some { ed with m_tco := some tco }
    else
      let tco := tco.setSampleFile (loadFile af) framesPerTick
      let ed := ed.log (.setSampleFile af)
      let ed := ed.log .setModified
      let ed := { ed with m_currentPosition := 0 }
      let ed := ed.log .updateAfterTCOChange
      let ed := ed.log .updateTrackTcos
      let ed := ed.log .nameChanged
      let ed := ed.log .update
      some { ed with m_tco := some tco }

/-- The function `inBBEditor()`. -/
def inBBEditor (song : Transport) (ed : SampleEditor) : Bool :=
  ed.validTCO && decide (song.trackContainer = .bbTrackContainer)

/-- The slot `play`. -/
def play (song : Transport) (ed : SampleEditor) : SampleEditor :=
  if !ed.validTCO then ed
  else if song.isStopped then ed.log (.playSample none)
  else ed.log .togglePause

/-- The slot `stop`. -/
def stop (song : Transport) (ed : SampleEditor) : SampleEditor :=
  match ed.m_tco with
  | none => ed
  | some tco =>
    let ed := if ed.inBBEditor song then ed.log .bbStop else ed.log .songStop
    let ed := { ed with m_recording := false }.log (.m_recording false)
    let tco := tco.setRecord false
    let ed := ed.log (.setRecord false)
    { ed with m_tco := some tco, m_scrollBack := true }

/-- The statements of `record` after the two guards (lines 1199-1203), for the
bound clip `tco`. -/
def startRecording (ed : SampleEditor) (tco : SampleTCO) : SampleEditor :=
  let ed := ed.log .tcoAddJournalCheckPoint
  let tco := tco.setRecord true
  let ed := ed.log (.setRecord true)
  let ed := { ed with m_tco := some tco, m_recording := true }.log (.m_recording true)
  ed.log .songRecord

/-- The slot `record`. -/
def record (song : Transport) (ed : SampleEditor) : SampleEditor :=
  let ed := if song.isPlaying then ed.stop song else ed
  if ed.m_recording then ed
  else
    match ed.m_tco with
    | none => ed
    | some tco => (ed.startRecording tco).log (.playSample (some false))

/-- The slot `recordAccompany`. -/
def recordAccompany (song : Transport) (ed : SampleEditor) : SampleEditor :=
  let ed := if song.isPlaying then ed.stop song else ed
  if ed.m_recording then ed
  else
    match ed.m_tco with
    | none => ed
    | some tco =>
      let ed := ed.startRecording tco
      if song.trackContainer = .song then ed.log .playSong else ed.log .playBB

/-- Constant `SCROLLBAR_SIZE` of SampleEditor.h. -/
def SCROLLBAR_SIZE : Int := 12

/-- Constant `DEFAULT_Y_DELTA` of SampleEditor.h. -/
def DEFAULT_Y_DELTA : Int := 6

/-- The function `setCurrentTCO`: the pointer assignment. The slot
`updateAfterTCOChange` it queues is not part of this function. -/
def setCurrentTCO (ed : SampleEditor) (new_tco : Option SampleTCO) : SampleEditor :=
  { ed with m_tco := new_tco }

/-- The slot `horScrolled`. -/
def horScrolled (ed : SampleEditor) (new_pos : Int) : SampleEditor :=
  ({ ed with m_currentPosition := new_pos }.log (.positionChanged new_pos)).log .update

/-- The handler `resizeEvent`, for a widget of the given height: the range and
value of the vertical scroll bar (lines 864-883) and the final `update()`.
`scrollLevel` is the value of `(int) m_scrollLevel`. The members `m_minLevel`
and `m_maxLevel` are 0 in every state: the constructor initialises them to 0
and the only assignment in the file stores 0. `floorf(a / (float) m_y_delta)`
is the floor of the quotient. Geometry and the `float` levels of
`updateTopBottomLevels` are left out. -/
def resizeEvent (height scrollLevel : Int) (ed : SampleEditor) : SampleEditor :=
  let grid_height := height - TOP_MARGIN - SCROLLBAR_SIZE
  let half_grid := Int.tdiv grid_height 2
  let total_pixels := (0 - 0) * ed.m_y_delta + 1
  let bar :=
    if ed.m_y_auto = false ∧ grid_height < total_pixels then
      let min_scroll := 0 + Int.fdiv half_grid ed.m_y_delta
      let max_scroll := 0 - Int.fdiv (grid_height - half_grid) ed.m_y_delta
      ed.m_topBottomScroll.setRange min_scroll max_scroll
    else ed.m_topBottomScroll.setRange scrollLevel scrollLevel
  let bar := bar.setValue scrollLevel
  { ed with m_topBottomScroll := bar }.log .update

/-- The vector `m_zoomXLevels`: 0.125, 0.25, 0.5, 1, 2, 4, 8, each `float` kept
as an exact fraction (numerator, denominator). -/
def m_zoomXLevels : List (Nat × Nat) :=
  [(1, 8), (1, 4), (1, 2), (1, 1), (2, 1), (4, 1), (8, 1)]

/-- The product `zoomLevel * DEFAULT_PPB` stored in the `int` member `m_ppb`:
the fractional part is discarded. -/
def ppbOfLevel (level : Nat × Nat) : Int :=
  Int.tdiv ((level.1 : Int) * DEFAULT_PPB) (level.2 : Int)

/-- The slot `zoomingXChanged`. It returns `none` when the index is outside
`m_zoomXLevels` or when `assert( m_ppb > 0 )` fails. -/
def zoomingXChanged (ed : SampleEditor) : Option SampleEditor :=
  match m_zoomXLevels[ed.m_zoomingXModel]? with
  | none => none
  | some level =>
    let m_ppb : Int := ppbOfLevel level
    let ed : SampleEditor := { ed with m_ppb := m_ppb }
    if m_ppb > 0 then some ((ed.log (.setPixelsPerBar m_ppb)).log .update) else none

/-- The entries of `m_zoomingYModel` as the `SampleEditorWindow` constructor
adds them (lines 1293-1297): "Auto", then `QString::number( 25 << i ) + "%"`
for `i` in 0..6. "Auto" is kept as `none`; a percentage is kept as the number
in front of the "%", which is what `zfac.left( zfac.length() - 1 ).toInt()`
reads back. -/
def zoomingYEntries : List (Option Int) :=
  none :: (List.range 7).map fun i => some (((25 <<< i : Nat) : Int))

/-- The value `percent * DEFAULT_Y_DELTA / 100` with C++ integer division. -/
def yDeltaOfPercent (percent : Int) : Int :=
  Int.tdiv (percent * DEFAULT_Y_DELTA) 100

/-- The slot `zoomingYChanged`, for a widget of the given height. It returns
`none` when the model has no current entry or when `assert( m_y_delta > 0 )`
(compiled in debug builds) fails. -/
def zoomingYChanged (height scrollLevel : Int) (ed : SampleEditor) : Option SampleEditor :=
  match zoomingYEntries[ed.m_zoomingYModel]? with
  | none => none
  | some zfac =>
    let m_y_auto : Bool := zfac.isNone
    let m_y_delta : Int :=
      match zfac with
      | some percent => yDeltaOfPercent percent
      | none => ed.m_y_delta
    let ed : SampleEditor := { ed with m_y_auto := m_y_auto, m_y_delta := m_y_delta }
    if m_y_delta > 0 then some (resizeEvent height scrollLevel ed) else none

/-- The events that reach the editor: the handlers and slots above. A zoom
event is the selection of an entry of the combo box model (7 entries for the
horizontal zoom, 8 for the vertical zoom) followed by the connected slot. -/
inductive Event where
  | setCurrentTCO (new_tco : Option SampleTCO)
  | keyPressEvent (key : Key)
  | mousePressEvent (mouseEvent : QMouseEvent)
  | mouseMoveEvent (mouseEvent : QMouseEvent)
  | mouseReleaseEvent (mouseEvent : QMouseEvent)
  | mouseDoubleClickEvent (framesPerTick : FramesPerTick) (loaded : SampleBuffer) (af : String)
  | reverse
  | play (song : Transport)
  | stop (song : Transport)
  | record (song : Transport)
  | recordAccompany (song : Transport)
  | horScrolled (new_pos : Int)
  | resizeEvent (height scrollLevel : Int)
  | zoomX (index : Fin 7)
  | zoomY (index : Fin 8) (height scrollLevel : Int)

/-- One event handled in a state. -/
def handle (env : Engine) (ed : SampleEditor) : Event → Option SampleEditor
  | .setCurrentTCO new_tco => some (ed.setCurrentTCO new_tco)
  | .keyPressEvent key => ed.keyPressEvent env key
  | .mousePressEvent mouseEvent => ed.mousePressEvent env mouseEvent
  | .mouseMoveEvent mouseEvent => some (ed.mouseMoveEvent env mouseEvent)
  | .mouseReleaseEvent mouseEvent => some (ed.mouseReleaseEvent mouseEvent)
  | .mouseDoubleClickEvent framesPerTick loaded af =>
    mouseDoubleClickEvent framesPerTick (fun _ => loaded) ed af
  | .reverse => ed.reverse
  | .play song => some (ed.play song)
  | .stop song => some (ed.stop song)
  | .record song => some (ed.record song)
  | .recordAccompany song => some (ed.recordAccompany song)
  | .horScrolled new_pos => some (ed.horScrolled new_pos)
  | .resizeEvent height scrollLevel => some (ed.resizeEvent height scrollLevel)
  | .zoomX index => zoomingXChanged { ed with m_zoomingXModel := index.val }
  | .zoomY index height scrollLevel =>
    zoomingYChanged height scrollLevel { ed with m_zoomingYModel := index.val }

/-- A sequence of events handled one after the other; `none` once a handler
fails. -/
def run (env : Engine) (ed : SampleEditor) : List Event → Option SampleEditor
  | [] => some ed
  | event :: events => (handle env ed event).bind fun ed' => run env ed' events

/-- The state the constructor leaves: no clip, no action, both zoom factors at
their defaults, automatic vertical zoom. Members the constructor does not
initialise are unconstrained. -/
def Constructed (ed : SampleEditor) : Prop :=
  ed.m_tco = none ∧ ed.m_action = .NONE ∧ ed.m_ppb = DEFAULT_PPB ∧
    ed.m_y_delta = DEFAULT_Y_DELTA ∧ ed.m_y_auto = true ∧ ed.m_mouseDownLeft = false ∧
    ed.m_mouseDownRight = false ∧ ed.m_scrollBack = false ∧ ed.m_recording = false

/-- The states reached from a constructed editor by a sequence of events. -/
def Reachable (env : Engine) (ed : SampleEditor) : Prop :=
  ∃ ed0 events, Constructed ed0 ∧ run env ed0 events = some ed

/-! ## Concrete states used to run the handlers -/

/-- An engine with 48 frames per tick and 192 ticks per bar. -/
def engine48 : Engine := ⟨fun _ => ⟨48, 0⟩, 192⟩

/-- A buffer holding `n` frames numbered from 0. -/
def bufferOf (n : Nat) : SampleBuffer :=
  ⟨(List.range n).map Int.ofNat, 44100, false, "sample.wav"⟩

/-- A clip at `position` with the given length in ticks and `n` frames. -/
def clipOf (position length : Int) (n : Nat) : SampleTCO :=
  ⟨position, length, bufferOf n, false⟩

/-- An editor at zoom 100% and scroll position 0 with the given clip and
selection, no drag in progress and an empty trace. Pixel `x` is tick
`x - 64`. -/
def editorOf (tco : Option SampleTCO) (selectionStart selectionEnd : Int) : SampleEditor where
  m_tco := tco
  m_action := .NONE
  m_mouseStartX := 0
  m_mouseCurrentX := 0
  m_selectionStart := selectionStart
  m_selectionEnd := selectionEnd
  m_ppb := DEFAULT_PPB
  m_y_delta := 6
  m_y_auto := true
  m_currentPosition := 0
  m_mouseDownLeft := false
  m_mouseDownRight := false
  m_recording := false
  m_scrollBack := false
  m_leftRightScroll := ⟨0, 0, 0⟩
  m_topBottomScroll := ⟨0, 0, 0⟩
  m_zoomingXModel := 3
  m_zoomingYModel := 0
  timeLinePos := 0
  rightTCOs := []
  calls := []

end SampleEditor

end Lmms

/-! ## Properties -/

namespace Lmms

/-- Frame count after a `trim` whose range is valid. -/
theorem SampleBuffer.frames_trim (b : SampleBuffer) (s e : Int) (hs : 0 ≤ s) (hse : s < e)
    (he : e ≤ b.frames) : (b.trim s e).frames = e - s := by
  have hinv : b.invalidRange s e = false := by
    simp only [SampleBuffer.invalidRange, Bool.or_eq_false_iff, decide_eq_false_iff_not]
    omega
  simp only [SampleBuffer.trim, hinv, SampleBuffer.frames, List.length_drop, List.length_take]
  simp only [SampleBuffer.frames] at he
  simp
  omega

end Lmms

/-! ### Arithmetic of `float` -/

namespace Lmms.Binary32

/-- The power of two found by halving is not above the number. -/
theorem log2_go_le (fuel : Nat) : ∀ n : Nat, 0 < n → 2 ^ log2.go fuel n ≤ n := by
  induction fuel with
  | zero => intro n hn; simpa [log2.go] using hn
  | succ fuel ih =>
    intro n hn
    unfold log2.go
    split
    · simpa using hn
    · have h2 : 0 < n / 2 := by omega
      have := ih (n / 2) h2
      rw [pow_succ]
      omega

/-- With enough fuel the next power of two is above the number. -/
theorem log2_go_lt (fuel : Nat) : ∀ n : Nat, n ≤ fuel → n < 2 ^ (log2.go fuel n + 1) := by
  induction fuel with
  | zero => intro n hn; simp [log2.go]; omega
  | succ fuel ih =>
    intro n hn
    unfold log2.go
    split
    · simp; omega
    · have h2 : n / 2 ≤ fuel := by omega
      have := ih (n / 2) h2
      rw [pow_succ]
      omega

/-- Lower bound of `log2`. -/
theorem pow_log2_le (n : Nat) (hn : 0 < n) : 2 ^ log2 n ≤ n := log2_go_le n n hn

/-- Upper bound of `log2`. -/
theorem lt_pow_log2 (n : Nat) : n < 2 ^ (log2 n + 1) := log2_go_lt n n (le_refl n)

/-- The exponent found by `log2Floor` is not above the exponent of the
quotient. -/
theorem log2Floor_le (num den : Nat) (hn : 0 < num) :
    ∃ l : Nat, (log2Floor num den = (l : Int) ∧ den * 2 ^ l ≤ num) ∨
      (log2Floor num den = -(l : Int) ∧ den ≤ num * 2 ^ l) := by
  have ha := pow_log2_le num hn
  have hb := lt_pow_log2 den
  unfold log2Floor
  simp only
  by_cases hab : log2 den ≤ log2 num
  · obtain ⟨c, hc⟩ := Nat.exists_eq_add_of_le hab
    have hd0 : ((log2 num : Int) - (log2 den : Int)) = (c : Int) := by omega
    rw [hd0]
    simp only [ge_iff_le, Int.natCast_nonneg, if_true, Int.toNat_ofNat]
    split
    · exact ⟨c, Or.inl ⟨rfl, by assumption⟩⟩
    · cases c with
      | zero =>
        refine ⟨1, Or.inr ⟨by simp, ?_⟩⟩
        rw [hc, add_zero] at ha
        rw [pow_succ] at hb
        omega
      | succ c =>
        refine ⟨c, Or.inl ⟨by push_cast; omega, ?_⟩⟩
        have h1 : den * 2 ^ c < 2 ^ (log2 den + 1) * 2 ^ c :=
          Nat.mul_lt_mul_of_pos_right hb (by positivity)
        have h2 : 2 ^ (log2 den + 1) * 2 ^ c = 2 ^ log2 num := by
          rw [← pow_add, hc]; congr 1; omega
        omega
  · obtain ⟨c, hc⟩ := Nat.exists_eq_add_of_le (le_of_lt (not_le.mp hab))
    have hc0 : 0 < c := by omega
    have hd0 : ((log2 num : Int) - (log2 den : Int)) = -(c : Int) := by omega
    rw [hd0]
    have hneg : ¬ (-(c : Int) ≥ 0) := by omega
    simp only [hneg, if_false, neg_neg, Int.toNat_ofNat]
    split
    · exact ⟨c, Or.inr ⟨rfl, by assumption⟩⟩
    · refine ⟨c + 1, Or.inr ⟨by push_cast; omega, ?_⟩⟩
      have h1 : 2 ^ log2 num * 2 ^ (c + 1) ≤ num * 2 ^ (c + 1) :=
        Nat.mul_le_mul_right _ ha
      have h2 : 2 ^ log2 num * 2 ^ (c + 1) = 2 ^ (log2 den + 1) := by
        rw [← pow_add, hc, Nat.add_assoc]
      omega


/-- The integer nearest to 0 is 0. -/
theorem roundHalfEven_zero (den : Nat) : roundHalfEven 0 den = 0 := by
  unfold roundHalfEven
  rw [if_neg]
  · simp
  · simp

/-- An exact quotient is not changed by rounding. -/
theorem roundHalfEven_mul (a den : Nat) (hd : 0 < den) : roundHalfEven (a * den) den = a := by
  unfold roundHalfEven
  rw [Nat.mul_mod_left, Nat.mul_div_cancel _ hd, if_neg]
  omega

/-- The conversion of 0 to an integer is 0. -/
theorem trunc_zero (e : Int) : trunc 0 e = 0 := by
  unfold trunc
  split <;> simp

/-- Rounding a quotient that was scaled by `P` and dividing by `P` again
gives the integer part of the quotient, as long as `den < 2 * P`. -/
theorem roundHalfEven_div (n den P : Nat) (hd : 0 < den) (hP : 0 < P) (hbig : den < 2 * P) :
    roundHalfEven (n * P) den / P = n / den := by
  have hq : n * P / den / P = n / den := by
    rw [Nat.div_div_eq_div_mul, Nat.mul_comm den P, ← Nat.div_div_eq_div_mul,
      Nat.mul_div_cancel _ hP]
  unfold roundHalfEven
  split
  · rename_i hup
    have h2r : den ≤ 2 * (n * P % den) := by omega
    have hr : n * P % den < den := Nat.mod_lt _ hd
    have hdm := Nat.div_add_mod (n * P) den
    have hK := Nat.div_add_mod n den
    have hKr : n % den < den := Nat.mod_lt _ hd
    rw [← hq]
    set q := n * P / den with hq_def
    have hKP := Nat.div_add_mod q P
    have hKPr : q % P < P := Nat.mod_lt _ hP
    by_cases hlast : q % P + 1 = P
    · exfalso
      have hK2 : q / P = n / den := hq
      have e1 : q + 1 = (n / den + 1) * P := by
        rw [← hK2]; nlinarith
      have e2 : n + 1 ≤ (n / den + 1) * den := by nlinarith
      have e3 : (n + 1) * P ≤ (q + 1) * den := by
        have := Nat.mul_le_mul_right P e2
        calc (n + 1) * P ≤ (n / den + 1) * den * P := this
          _ = (q + 1) * den := by rw [e1]; ring
      nlinarith
    · have hlt : q % P + 1 < P := by omega
      have hc1 : q / P * P = P * (q / P) := Nat.mul_comm _ _
      have hc2 : (q / P + 1) * P = P * (q / P) + P := by ring
      apply Nat.div_eq_of_lt_le
      · omega
      · omega
  · exact hq

/-- The two cases of `round` for a positive `num`, with the exponent as a
natural number and the lower bound on the scaled quotient. -/
theorem round_cases (num den : Nat) (hn : 0 < num) :
    (∃ j : Nat, round num den = (roundHalfEven num (den * 2 ^ j), (j : Int)) ∧
      den * 2 ^ (j + 23) ≤ num) ∨
    (∃ k : Nat, round num den = (roundHalfEven (num * 2 ^ k) den, -(k : Int)) ∧
      den * 2 ^ 23 ≤ num * 2 ^ k) := by
  unfold round
  simp only
  obtain ⟨l, hl | hl⟩ := log2Floor_le num den hn
  · obtain ⟨hL, hb⟩ := hl
    rw [hL]
    by_cases he : (l : Int) - 23 ≥ 0
    · left
      obtain ⟨j, hj⟩ := Nat.exists_eq_add_of_le (show 23 ≤ l by omega)
      refine ⟨j, ?_, ?_⟩
      · rw [if_pos he]
        have h1 : ((l : Int) - 23).toNat = j := by omega
        have h2 : (l : Int) - 23 = (j : Int) := by omega
        rw [h1, h2]
      · rw [hj, Nat.add_comm] at hb; exact hb
    · right
      obtain ⟨k, hk⟩ := Nat.exists_eq_add_of_le (show l ≤ 23 by omega)
      refine ⟨k, ?_, ?_⟩
      · rw [if_neg he]
        have h1 : (-((l : Int) - 23)).toNat = k := by omega
        have h2 : (l : Int) - 23 = -(k : Int) := by omega
        rw [h1, h2]
      · have := Nat.mul_le_mul_right (2 ^ k) hb
        rw [hk, pow_add, ← mul_assoc]; exact this
  · obtain ⟨hL, hb⟩ := hl
    rw [hL]
    have he : ¬ (-(l : Int) - 23 ≥ 0) := by omega
    right
    refine ⟨l + 23, ?_, ?_⟩
    · rw [if_neg he]
      have h1 : (-(-(l : Int) - 23)).toNat = l + 23 := by omega
      have h2 : -(l : Int) - 23 = -((l + 23 : Nat) : Int) := by push_cast; omega
      rw [h1, h2]
    · have := Nat.mul_le_mul_right (2 ^ 23) hb
      rw [pow_add, ← mul_assoc]; exact this

/-- The `float` nearest to 0 is 0. -/
theorem round_zero (den : Nat) : (round 0 den).1 = 0 := by
  unfold round
  simp only
  split <;> simp [roundHalfEven_zero]

/-- Scaling both arguments by the same positive factor does not change the
rounded quotient. -/
theorem roundHalfEven_mul_right (a b s : Nat) (hs : 0 < s) :
    roundHalfEven (a * s) (b * s) = roundHalfEven a b := by
  unfold roundHalfEven
  rw [Nat.mul_mod_mul_right, Nat.mul_div_mul_right _ _ hs]
  have h1 : 2 * (a % b * s) > b * s ↔ 2 * (a % b) > b := by
    rw [← mul_assoc]; exact Nat.mul_lt_mul_right hs
  have h2 : 2 * (a % b * s) = b * s ↔ 2 * (a % b) = b := by
    rw [← mul_assoc]; exact Nat.mul_left_inj (by omega)
  simp only [h1, h2]

/-- The truncated `float` quotient of two integers, the dividend below
`2 ^ 24` and held with a scale `2 ^ k`, is the integer part of the exact
quotient. -/
theorem trunc_round_div (n m k : Nat) (hm : 0 < m) (hn : n < 2 ^ 24) :
    trunc (round (n * 2 ^ k) m).1 ((round (n * 2 ^ k) m).2 + -(k : Int) - 0) = n / m := by
  rcases Nat.eq_zero_or_pos n with h0 | hpos
  · subst h0
    rw [Nat.zero_mul, round_zero, trunc_zero, Nat.zero_div]
  · have h24 : (2 : Nat) ^ 24 = 2 * 2 ^ 23 := by norm_num
    have hNpos : 0 < n * 2 ^ k := Nat.mul_pos hpos (Nat.two_pow_pos k)
    have hN : n * 2 ^ k < 2 ^ 24 * 2 ^ k := Nat.mul_lt_mul_of_pos_right hn (Nat.two_pow_pos k)
    obtain ⟨j, hr, hb⟩ | ⟨k', hr, hb⟩ := round_cases (n * 2 ^ k) m hNpos
    · rw [hr]
      have h1 : m * 2 ^ j * 2 ^ 23 ≤ n * 2 ^ k := by rw [mul_assoc, ← pow_add]; exact hb
      have h2 : m * 2 ^ j < 2 * 2 ^ k := by
        by_contra hcon
        have := Nat.mul_le_mul_right (2 ^ 23) (not_lt.mp hcon)
        have h3 : 2 * 2 ^ k * 2 ^ 23 = 2 ^ 24 * 2 ^ k := by rw [h24]; ring
        omega
      have hjk : j ≤ k := by
        by_contra hcon
        have h3 : 2 ^ (k + 1) ≤ 2 ^ j := Nat.pow_le_pow_right (by norm_num) (by omega)
        have h4 : 1 * 2 ^ j ≤ m * 2 ^ j := Nat.mul_le_mul_right _ hm
        rw [pow_succ] at h3
        omega
      obtain ⟨c, hc⟩ := Nat.exists_eq_add_of_le hjk
      have hPj : 0 < 2 ^ j := Nat.two_pow_pos j
      have hPc : 0 < 2 ^ c := Nat.two_pow_pos c
      have hsplit : n * 2 ^ k = n * 2 ^ c * 2 ^ j := by rw [hc, pow_add]; ring
      have hbig : m < 2 * 2 ^ c := by
        by_contra hcon
        have h3 := Nat.mul_le_mul_right (2 ^ j) (not_lt.mp hcon)
        have h4 : 2 * 2 ^ c * 2 ^ j = 2 * 2 ^ k := by rw [hc, pow_add]; ring
        omega
      have hdiv := roundHalfEven_div n m (2 ^ c) hm hPc hbig
      rw [hsplit, roundHalfEven_mul_right _ _ _ hPj]
      unfold trunc
      split
      · rename_i he
        have hc0 : c = 0 := by omega
        have h5 : ((j : Int) + -(k : Int) - 0).toNat = 0 := by omega
        rw [h5]
        subst hc0
        simpa using hdiv
      · have h5 : (-((j : Int) + -(k : Int) - 0)).toNat = c := by omega
        rw [h5]
        exact hdiv
    · rw [hr]
      have hP : 0 < 2 ^ (k + k') := Nat.two_pow_pos _
      have hsplit : n * 2 ^ k * 2 ^ k' = n * 2 ^ (k + k') := by rw [pow_add]; ring
      have hbig : m < 2 * 2 ^ (k + k') := by
        by_contra hcon
        have h1 := Nat.mul_le_mul_right (2 ^ 23) (not_lt.mp hcon)
        have h2 : n * 2 ^ (k + k') < 2 ^ 24 * 2 ^ (k + k') := Nat.mul_lt_mul_of_pos_right hn hP
        have h3 : 2 * 2 ^ (k + k') * 2 ^ 23 = 2 ^ 24 * 2 ^ (k + k') := by rw [h24]; ring
        rw [hsplit] at hb
        omega
      have hdiv := roundHalfEven_div n m (2 ^ (k + k')) hm hP hbig
      rw [hsplit]
      unfold trunc
      simp only
      split
      · rename_i he
        have hk0 : k = 0 := by omega
        have hk0' : k' = 0 := by omega
        subst hk0 hk0'
        simpa using hdiv
      · have h5 : (-(-(k' : Int) + -(k : Int) - 0)).toNat = k + k' := by omega
        rw [h5]
        exact hdiv

/-- An integer below `2 ^ 24` is converted to `float` exactly: the result is
the integer scaled by a power of two. -/
theorem round_integer (n : Nat) (hpos : 0 < n) (hn : n < 2 ^ 24) :
    ∃ k : Nat, round n 1 = (n * 2 ^ k, -(k : Int)) := by
  have hone : ∀ x : Nat, roundHalfEven x 1 = x := fun x => by
    simpa using roundHalfEven_mul x 1 Nat.one_pos
  obtain ⟨j, hr, hb⟩ | ⟨k, hr, _⟩ := round_cases n 1 hpos
  · have hj : j = 0 := by
      by_contra hne
      have : 2 ^ 24 ≤ 2 ^ (j + 23) := Nat.pow_le_pow_right (by norm_num) (by omega)
      omega
    subst hj
    refine ⟨0, ?_⟩
    rw [hr]
    simp [hone]
  · exact ⟨k, by rw [hr, hone]⟩

end Lmms.Binary32

namespace Lmms

/-- For an integer number of frames per tick and fewer than `2 ^ 24` frames
the quotient cast to `int` is the floor of the exact quotient. -/
theorem FramesPerTick.ticks_of_integer (f : Nat) (frames : Int) (h0 : 0 ≤ frames) (hf : 0 < f)
    (h : frames < 2 ^ 24) :
    (⟨f, 0⟩ : FramesPerTick).ticks frames = ⌊(frames : ℚ) / (f : ℚ)⌋ := by
  obtain ⟨n, rfl⟩ := Int.eq_ofNat_of_zero_le h0
  have hn : n < 2 ^ 24 := by exact_mod_cast h
  have hneg : ¬ ((n : Int) < 0) := by omega
  have hfloor : ⌊((n : Int) : ℚ) / (f : ℚ)⌋ = ((n / f : Nat) : Int) := by
    rw [show ((n : Int) : ℚ) = ((n : Nat) : ℚ) by simp, Rat.floor_natCast_div_natCast]
    simp
  simp only [FramesPerTick.ticks, Int.natAbs_ofNat, hneg, if_false]
  rw [hfloor]
  rcases Nat.eq_zero_or_pos n with hz | hpos
  · subst hz
    rw [Binary32.round_zero, Binary32.round_zero, Binary32.trunc_zero]
    simp
  · obtain ⟨k, hk⟩ := Binary32.round_integer n hpos hn
    rw [hk]
    simp only
    rw [Binary32.trunc_round_div n f k hf hn]

end Lmms

namespace Lmms.SampleEditor

theorem beginSelection_m_tco (ed : SampleEditor) (t : Int) :
    (beginSelection ed t).m_tco = ed.m_tco := by
  unfold beginSelection; split <;> rfl

theorem beginSelection_rightTCOs (ed : SampleEditor) (t : Int) :
    (beginSelection ed t).rightTCOs = ed.rightTCOs := by
  unfold beginSelection; split <;> rfl

theorem beginSelection_calls (ed : SampleEditor) (t : Int) :
    (beginSelection ed t).calls = ed.calls := by
  unfold beginSelection; split <;> rfl

/-- A right-button press at an interior tick of the bound clip runs the split
block and then the selection block. -/
theorem mousePressEvent_right_interior (env : Engine) (ed : SampleEditor) (tco : SampleTCO)
    (ev : QMouseEvent) (h_tco : ed.m_tco = some tco) (h_btn : ev.button = .RightButton)
    (h_pos : 0 < ed.tickOfXCoord env ev.x) (h_lt : ed.tickOfXCoord env ev.x < tco.length) :
    mousePressEvent env ed ev =
      some (beginSelection
        (splitTCO env { ed with m_mouseStartX := ev.x, m_mouseDownRight := true } tco
          (ed.tickOfXCoord env ev.x))
        (ed.tickOfXCoord env ev.x)) := by
  have ht : tickOfXCoord env { ed with m_mouseStartX := ev.x } ev.x = ed.tickOfXCoord env ev.x := rfl
  simp only [mousePressEvent, knife, h_btn, ht]
  simp [h_pos, h_lt, h_tco, beginSelection]

/-- A right-button press at a tick on or outside the edges of the bound clip
skips the split block. -/
theorem mousePressEvent_right_outside (env : Engine) (ed : SampleEditor) (tco : SampleTCO)
    (ev : QMouseEvent) (h_tco : ed.m_tco = some tco) (h_btn : ev.button = .RightButton)
    (h_out : ed.tickOfXCoord env ev.x ≤ 0 ∨ tco.length ≤ ed.tickOfXCoord env ev.x) :
    mousePressEvent env ed ev =
      some (beginSelection { ed with m_mouseStartX := ev.x, m_mouseDownRight := true }
        (ed.tickOfXCoord env ev.x)) := by
  have ht : tickOfXCoord env { ed with m_mouseStartX := ev.x } ev.x = ed.tickOfXCoord env ev.x := rfl
  simp only [mousePressEvent, knife, h_btn, ht]
  by_cases h0 : 0 < ed.tickOfXCoord env ev.x
  · have h1 : ¬ ed.tickOfXCoord env ev.x < tco.length := by omega
    simp [h0, h1, h_tco, beginSelection]
  · simp [h0, beginSelection]

/-! ### Split by a right-button press -/

/-- The two clips a right-button press at an interior tick `t` produces, where
`k` is the frame offset of `t`. -/
theorem mousePressEvent_split (env : Engine) (ed : SampleEditor) (tco : SampleTCO)
    (ev : QMouseEvent) (t : Int) (h_tco : ed.m_tco = some tco)
    (h_btn : ev.button = .RightButton) (h_tick : ed.tickOfXCoord env ev.x = t)
    (h_pos : 0 < t) (h_lt : t < tco.length) :
    ∃ ed', mousePressEvent env ed ev = some ed' ∧
      ed'.m_tco = some
        { startPosition := tco.startPosition
          length := t
          sampleBuffer := tco.sampleBuffer.trim 0
            ((env.framesPerTick tco.sampleBuffer.sampleRate).frames t)
          record := tco.record } ∧
      ed'.rightTCOs = ed.rightTCOs ++
        [{ startPosition := t
           length := tco.length - t
           sampleBuffer := tco.sampleBuffer.trim
             ((env.framesPerTick tco.sampleBuffer.sampleRate).frames t) tco.sampleBuffer.frames
           record := tco.record }] ∧
      ed'.calls = ed.calls ++
        [.addJournalCheckPoint, .saveJournallingState false, .newSampleTCO,
          .movePosition .right t,
          .trim .right ((env.framesPerTick tco.sampleBuffer.sampleRate).frames t)
            tco.sampleBuffer.frames,
          .changeLength .right (tco.length - t), .dataChanged .right,
          .trim .current 0 ((env.framesPerTick tco.sampleBuffer.sampleRate).frames t),
          .changeLength .current t, .updateTrackTcos, .dataChanged .current,
          .restoreJournallingState] := by
  subst h_tick
  rw [mousePressEvent_right_interior env ed tco ev h_tco h_btn h_pos h_lt]
  refine ⟨_, rfl, ?_, ?_, ?_⟩
  · rw [beginSelection_m_tco]
    simp [splitTCO, log, SampleTCO.changeLength]
  · rw [beginSelection_rightTCOs]
    simp [splitTCO, log, SampleTCO.changeLength, SampleTCO.movePosition]
  · rw [beginSelection_calls]
    simp [splitTCO, log]


/-- C1: for a clip of length `L` and a tick `t` with `0 < t < L`, the split made
by a right-button press at tick `t` leaves the original clip with length `t`,
gives the new right-hand clip length `L - t`, and the two lengths sum to
`L`. -/
theorem split_lengths (env : Engine) (ed : SampleEditor) (tco : SampleTCO) (ev : QMouseEvent)
    (t : Int) (h_tco : ed.m_tco = some tco) (h_btn : ev.button = .RightButton)
    (h_tick : ed.tickOfXCoord env ev.x = t) (h_pos : 0 < t) (h_lt : t < tco.length) :
    ∃ ed' left right, mousePressEvent env ed ev = some ed' ∧
      ed'.m_tco = some left ∧ ed'.rightTCOs = ed.rightTCOs ++ [right] ∧
      left.length = t ∧ right.length = tco.length - t ∧
      left.length + right.length = tco.length := by
  obtain ⟨ed', h, hl, hr, _⟩ := mousePressEvent_split env ed tco ev t h_tco h_btn h_tick h_pos h_lt
  exact ⟨ed', _, _, h, hl, hr, rfl, rfl, by simp⟩

/-- C1 at the scenario of the spec: a clip of length 100 split at tick 40
(pixel 104) gives lengths 40 and 60. -/
theorem split_lengths_witness :
    ∃ ed' left right,
      mousePressEvent engine48 (editorOf (some (clipOf 300 100 4800)) 0 0)
        ⟨104, 50, .RightButton⟩ = some ed' ∧
      ed'.m_tco = some left ∧ ed'.rightTCOs = [] ++ [right] ∧
      left.length = 40 ∧ right.length = 100 - 40 ∧ left.length + right.length = 100 :=
  split_lengths engine48 (editorOf (some (clipOf 300 100 4800)) 0 0) (clipOf 300 100 4800)
    ⟨104, 50, .RightButton⟩ 40 rfl rfl (by decide) (by decide) (by decide)

/-- C2, as stated, fails: a clip of length 100 ticks whose buffer holds only 96
frames, split at tick 40 with 48 frames per tick. Both trims are out of range,
both buffers keep 96 frames, and 96 + 96 is not 96. -/
theorem split_frames_counterexample :
    (mousePressEvent engine48 (editorOf (some (clipOf 300 100 96)) 0 0)
        ⟨104, 50, .RightButton⟩).map
      (fun ed' => (ed'.m_tco.map (fun c => c.sampleBuffer.frames),
        ed'.rightTCOs.map (fun c => c.sampleBuffer.frames))) = some (some 96, [96]) ∧
    tickOfXCoord engine48 (editorOf (some (clipOf 300 100 96)) 0 0) 104 = 40 ∧
    (0 : Int) < 40 ∧ (40 : Int) < (clipOf 300 100 96).length ∧
    (clipOf 300 100 96).sampleBuffer.frames = 96 ∧ (96 : Int) + 96 ≠ 96 := by
  decide

/-- C2, amended: if the frame offset `k` of the split tick `t` (the truncated
product `framesPerTick * t`) satisfies `0 < k < F`, where `F` is the frame
count of the buffer, then after the split the original clip's buffer holds `k`
frames, the new clip's buffer holds `F - k` frames, and the two counts sum to
`F`. -/
theorem split_frames (env : Engine) (ed : SampleEditor) (tco : SampleTCO) (ev : QMouseEvent)
    (t : Int) (h_tco : ed.m_tco = some tco) (h_btn : ev.button = .RightButton)
    (h_tick : ed.tickOfXCoord env ev.x = t) (h_pos : 0 < t) (h_lt : t < tco.length)
    (h_k_pos : 0 < (env.framesPerTick tco.sampleBuffer.sampleRate).frames t)
    (h_k_lt : (env.framesPerTick tco.sampleBuffer.sampleRate).frames t <
      tco.sampleBuffer.frames) :
    ∃ ed' left right, mousePressEvent env ed ev = some ed' ∧
      ed'.m_tco = some left ∧ ed'.rightTCOs = ed.rightTCOs ++ [right] ∧
      left.sampleBuffer.frames = (env.framesPerTick tco.sampleBuffer.sampleRate).frames t ∧
      right.sampleBuffer.frames =
        tco.sampleBuffer.frames - (env.framesPerTick tco.sampleBuffer.sampleRate).frames t ∧
      left.sampleBuffer.frames + right.sampleBuffer.frames = tco.sampleBuffer.frames := by
  obtain ⟨ed', h, hl, hr, _⟩ := mousePressEvent_split env ed tco ev t h_tco h_btn h_tick h_pos h_lt
  have fl := SampleBuffer.frames_trim tco.sampleBuffer 0 _ (le_refl 0) h_k_pos (le_of_lt h_k_lt)
  have fr := SampleBuffer.frames_trim tco.sampleBuffer _ _ (le_of_lt h_k_pos) h_k_lt (le_refl _)
  refine ⟨ed', _, _, h, hl, hr, ?_, ?_, ?_⟩
  · simp only [fl]; omega
  · exact fr
  · simp only [fl, fr]; omega

/-- The buffer of `bufferOf n` holds `n` frames. -/
theorem frames_bufferOf (n : Nat) : (bufferOf n).frames = n := by
  simp [bufferOf, SampleBuffer.frames]

/-- C2 (amended) at the scenario of the spec: 4800 frames, 48 frames per tick,
split at tick 40 gives 1920 and 2880 frames. -/
theorem split_frames_witness :
    ∃ ed' left right,
      mousePressEvent engine48 (editorOf (some (clipOf 300 100 4800)) 0 0)
        ⟨104, 50, .RightButton⟩ = some ed' ∧
      ed'.m_tco = some left ∧ ed'.rightTCOs = [right] ∧
      left.sampleBuffer.frames = 1920 ∧ right.sampleBuffer.frames = 2880 ∧
      left.sampleBuffer.frames + right.sampleBuffer.frames = 4800 := by
  have hF : (clipOf 300 100 4800).sampleBuffer.frames = 4800 := frames_bufferOf 4800
  have hk : (engine48.framesPerTick (clipOf 300 100 4800).sampleBuffer.sampleRate).frames 40
      = 1920 := by decide
  have h := split_frames engine48 (editorOf (some (clipOf 300 100 4800)) 0 0)
    (clipOf 300 100 4800) ⟨104, 50, .RightButton⟩ 40 rfl rfl (by decide) (by decide)
    (by decide) (by rw [hk]; decide) (by rw [hk, hF]; decide)
  rw [hk, hF] at h
  exact h

/-- C3, the code at the failing input: a clip at position 300 of length 100 is
split by a right-button press at pixel 104 (tick 40 of the clip). The handler
passes the tick counted from the clip start to `movePosition`, so the new
right-hand clip is placed at position 40, not at 300 + 40; the original clip
stays at 300. -/
theorem split_places_copy_at_clip_tick :
    tickOfXCoord engine48 (editorOf (some (clipOf 300 100 4800)) 0 0) 104 = 40 ∧
    (mousePressEvent engine48 (editorOf (some (clipOf 300 100 4800)) 0 0)
        ⟨104, 50, .RightButton⟩).map
      (fun ed' => (ed'.m_tco.map (fun c => c.startPosition),
        ed'.rightTCOs.map (fun c => c.startPosition),
        ed'.calls.filter (fun c => c == Call.movePosition .right 40))) =
      some (some 300, [40], [.movePosition .right 40]) ∧
    (40 : Int) ≠ 300 + 40 := by
  decide

/-- C4: for a bound clip and a tick `t` with `t <= 0` or `t >= length`, a
right-button press at `t` performs no split: the clip (length, position and
buffer) is unchanged, no clip is created and nothing is added to the trace of
calls, so no journal checkpoint is added. -/
theorem split_rejected (env : Engine) (ed : SampleEditor) (tco : SampleTCO) (ev : QMouseEvent)
    (t : Int) (h_tco : ed.m_tco = some tco) (h_btn : ev.button = .RightButton)
    (h_tick : ed.tickOfXCoord env ev.x = t) (h_out : t ≤ 0 ∨ tco.length ≤ t) :
    ∃ ed', mousePressEvent env ed ev = some ed' ∧
      ed'.m_tco = some tco ∧ ed'.rightTCOs = ed.rightTCOs ∧ ed'.calls = ed.calls ∧
      Call.addJournalCheckPoint ∉ ed'.calls.drop ed.calls.length := by
  subst h_tick
  rw [mousePressEvent_right_outside env ed tco ev h_tco h_btn h_out]
  refine ⟨_, rfl, ?_, ?_, ?_, ?_⟩
  · rw [beginSelection_m_tco]; exact h_tco
  · rw [beginSelection_rightTCOs]
  · rw [beginSelection_calls]
  · rw [beginSelection_calls]; simp

/-- C4 at the scenario of the spec: presses at tick 100 (pixel 164) on a clip
of length 100 leave it unmodified. -/
theorem split_rejected_witness :
    ∃ ed', mousePressEvent engine48 (editorOf (some (clipOf 300 100 4800)) 0 0)
        ⟨164, 50, .RightButton⟩ = some ed' ∧
      ed'.m_tco = some (clipOf 300 100 4800) ∧ ed'.rightTCOs = [] ∧ ed'.calls = [] ∧
      Call.addJournalCheckPoint ∉ ed'.calls.drop ([] : List Call).length :=
  split_rejected engine48 (editorOf (some (clipOf 300 100 4800)) 0 0) (clipOf 300 100 4800)
    ⟨164, 50, .RightButton⟩ 100 rfl rfl (by decide) (by decide)

/-! ### Deletion of the selection by the Delete key -/

/-- The Delete key with a selection `start < end <= length` runs the deletion
block, then the `Key_Down` block. -/
theorem keyPressEvent_delete_inside (env : Engine) (ed : SampleEditor) (tco : SampleTCO)
    (h_tco : ed.m_tco = some tco) (h_lt : ed.m_selectionStart < ed.m_selectionEnd)
    (h_le : ed.m_selectionEnd ≤ tco.length) :
    keyPressEvent env ed .Key_Delete = some (keyDown (deleteSelection env ed tco)) := by
  have h1 : ¬ (ed.m_selectionEnd > tco.length ∧ ed.m_selectionStart < tco.length) := by omega
  have h2 : ed.m_selectionEnd - ed.m_selectionStart > 0 ∧ ed.m_selectionEnd ≤ tco.length := by
    omega
  simp only [keyPressEvent, h_tco, h1, h2, if_true, if_false, and_self]

/-- The Delete key with a selection `start < length < end` sets the selection
end to the length and runs the deletion block, then the `Key_Down` block. -/
theorem keyPressEvent_delete_clamped (env : Engine) (ed : SampleEditor) (tco : SampleTCO)
    (h_tco : ed.m_tco = some tco) (h_lt : ed.m_selectionStart < tco.length)
    (h_gt : tco.length < ed.m_selectionEnd) :
    keyPressEvent env ed .Key_Delete =
      some (keyDown (deleteSelection env { ed with m_selectionEnd := tco.length } tco)) := by
  have h1 : ed.m_selectionEnd > tco.length ∧ ed.m_selectionStart < tco.length := by omega
  have h2 : tco.length - ed.m_selectionStart > 0 := by omega
  simp only [keyPressEvent, h_tco, h1, h2, if_true, and_self, le_refl]

/-- The Delete key with a selection that is empty or inverted, or that lies
beyond the clip, skips the deletion block and runs the `Key_Down` block. -/
theorem keyPressEvent_delete_rejected (env : Engine) (ed : SampleEditor) (tco : SampleTCO)
    (h_tco : ed.m_tco = some tco)
    (h : ed.m_selectionEnd ≤ ed.m_selectionStart ∨
      (tco.length < ed.m_selectionEnd ∧ tco.length ≤ ed.m_selectionStart)) :
    keyPressEvent env ed .Key_Delete = some (keyDown ed) := by
  have h1 : ¬ (ed.m_selectionEnd > tco.length ∧ ed.m_selectionStart < tco.length) := by omega
  have h2 : ¬ (ed.m_selectionEnd - ed.m_selectionStart > 0 ∧ ed.m_selectionEnd ≤ tco.length) := by
    omega
  simp only [keyPressEvent, h_tco, h1, h2, if_false]

/-- The clip, the selection and the trace after the deletion block. -/
theorem deleteSelection_result (env : Engine) (ed : SampleEditor) (tco : SampleTCO) :
    (deleteSelection env ed tco).m_tco = some
        { startPosition := tco.startPosition
          length := tco.length - ed.m_selectionEnd + ed.m_selectionStart
          sampleBuffer := tco.sampleBuffer.removeSection
            ((env.framesPerTick tco.sampleBuffer.sampleRate).frames ed.m_selectionStart)
            ((env.framesPerTick tco.sampleBuffer.sampleRate).frames ed.m_selectionEnd)
          record := tco.record } ∧
      (deleteSelection env ed tco).m_selectionStart = ed.m_selectionStart ∧
      (deleteSelection env ed tco).m_selectionEnd = ed.m_selectionEnd ∧
      (deleteSelection env ed tco).calls = ed.calls ++
        [.addJournalCheckPoint, .saveJournallingState false,
          .removeSection
            ((env.framesPerTick tco.sampleBuffer.sampleRate).frames ed.m_selectionStart)
            ((env.framesPerTick tco.sampleBuffer.sampleRate).frames ed.m_selectionEnd),
          .updateTrackTcos,
          .changeLength .current (tco.length - ed.m_selectionEnd + ed.m_selectionStart),
          .restoreJournallingState, .repaint] := by
  simp [deleteSelection, log, SampleTCO.changeLength]

/-- C5: for a clip of length `L` and a selection `(s, e)` with
`0 <= s < e <= L`, the Delete key calls `removeSection` with the frame offsets
of `s` and `e` and sets the clip length to `L - (e - s)`. -/
theorem delete_reduces_length (env : Engine) (ed : SampleEditor) (tco : SampleTCO) (s e : Int)
    (h_tco : ed.m_tco = some tco) (h_start : ed.m_selectionStart = s)
    (h_end : ed.m_selectionEnd = e) (h_s : 0 ≤ s) (h_lt : s < e) (h_le : e ≤ tco.length) :
    ∃ ed' tco', keyPressEvent env ed .Key_Delete = some ed' ∧ ed'.m_tco = some tco' ∧
      tco'.length = tco.length - (e - s) ∧
      tco'.sampleBuffer = tco.sampleBuffer.removeSection
        ((env.framesPerTick tco.sampleBuffer.sampleRate).frames s)
        ((env.framesPerTick tco.sampleBuffer.sampleRate).frames e) ∧
      ed'.calls.drop ed.calls.length =
        [.addJournalCheckPoint, .saveJournallingState false,
          .removeSection ((env.framesPerTick tco.sampleBuffer.sampleRate).frames s)
            ((env.framesPerTick tco.sampleBuffer.sampleRate).frames e),
          .updateTrackTcos, .changeLength .current (tco.length - (e - s)),
          .restoreJournallingState, .repaint] := by
  subst h_start h_end
  rw [keyPressEvent_delete_inside env ed tco h_tco h_lt h_le]
  obtain ⟨hc, _, _, hcalls⟩ := deleteSelection_result env ed tco
  refine ⟨_, _, rfl, hc, ?_, rfl, ?_⟩
  · show tco.length - ed.m_selectionEnd + ed.m_selectionStart = _
    omega
  · show List.drop ed.calls.length (deleteSelection env ed tco).calls = _
    rw [hcalls, List.drop_left]
    have : tco.length - ed.m_selectionEnd + ed.m_selectionStart
        = tco.length - (ed.m_selectionEnd - ed.m_selectionStart) := by omega
    rw [this]

/-- C5 on a clip of length 100 with 48 frames per tick: deleting the selection
`(20, 50)` calls `removeSection(960, 2400)` and leaves length 70. -/
theorem delete_reduces_length_witness :
    ∃ ed' tco', keyPressEvent engine48 (editorOf (some (clipOf 300 100 4800)) 20 50) .Key_Delete
        = some ed' ∧ ed'.m_tco = some tco' ∧ tco'.length = 70 ∧
      tco'.sampleBuffer = (bufferOf 4800).removeSection 960 2400 ∧
      ed'.calls =
        [.addJournalCheckPoint, .saveJournallingState false, .removeSection 960 2400,
          .updateTrackTcos, .changeLength .current 70, .restoreJournallingState, .repaint] :=
  delete_reduces_length engine48 (editorOf (some (clipOf 300 100 4800)) 20 50)
    (clipOf 300 100 4800) 20 50 rfl rfl rfl (by decide) (by decide) (by decide)

/-- C6: for a clip of length `L` and a selection `(s, e)` with `0 <= s < L < e`,
the Delete key sets the selection end to `L`, deletes `[s, L)` and leaves the
clip with length `s`. -/
theorem delete_clamps_end (env : Engine) (ed : SampleEditor) (tco : SampleTCO) (s e : Int)
    (h_tco : ed.m_tco = some tco) (h_start : ed.m_selectionStart = s)
    (h_end : ed.m_selectionEnd = e) (h_s : 0 ≤ s) (h_lt : s < tco.length)
    (h_gt : tco.length < e) :
    ∃ ed' tco', keyPressEvent env ed .Key_Delete = some ed' ∧ ed'.m_tco = some tco' ∧
      ed'.m_selectionStart = s ∧ ed'.m_selectionEnd = tco.length ∧ tco'.length = s ∧
      tco'.sampleBuffer = tco.sampleBuffer.removeSection
        ((env.framesPerTick tco.sampleBuffer.sampleRate).frames s)
        ((env.framesPerTick tco.sampleBuffer.sampleRate).frames tco.length) ∧
      Call.removeSection ((env.framesPerTick tco.sampleBuffer.sampleRate).frames s)
        ((env.framesPerTick tco.sampleBuffer.sampleRate).frames tco.length) ∈
          ed'.calls.drop ed.calls.length := by
  subst h_start h_end
  rw [keyPressEvent_delete_clamped env ed tco h_tco h_lt h_gt]
  obtain ⟨hc, hs, he, hcalls⟩ :=
    deleteSelection_result env { ed with m_selectionEnd := tco.length } tco
  refine ⟨_, _, rfl, hc, hs, he, ?_, rfl, ?_⟩
  · show tco.length - tco.length + ed.m_selectionStart = _
    omega
  · show _ ∈ List.drop ed.calls.length
      (deleteSelection env { ed with m_selectionEnd := tco.length } tco).calls
    rw [hcalls]
    show _ ∈ List.drop ed.calls.length (ed.calls ++ _)
    rw [List.drop_left]
    simp

/-- C6 at the scenario of the spec: length 100 and selection `(90, 120)` give
selection end 100 and length 90. -/
theorem delete_clamps_end_witness :
    ∃ ed' tco', keyPressEvent engine48 (editorOf (some (clipOf 300 100 4800)) 90 120) .Key_Delete
        = some ed' ∧ ed'.m_tco = some tco' ∧
      ed'.m_selectionStart = 90 ∧ ed'.m_selectionEnd = 100 ∧ tco'.length = 90 ∧
      tco'.sampleBuffer = (bufferOf 4800).removeSection 4320 4800 ∧
      Call.removeSection 4320 4800 ∈ ed'.calls.drop ([] : List Call).length :=
  delete_clamps_end engine48 (editorOf (some (clipOf 300 100 4800)) 90 120)
    (clipOf 300 100 4800) 90 120 rfl rfl rfl (by decide) (by decide) (by decide)

/-- C7: for a bound clip and a selection with `start >= end`, the Delete key
leaves the clip (length and buffer) and the selection bounds unchanged and
adds nothing to the trace of calls: `removeSection` is not called and no
journal checkpoint is added. -/
theorem delete_empty_selection (env : Engine) (ed : SampleEditor) (tco : SampleTCO)
    (h_tco : ed.m_tco = some tco) (h_ge : ed.m_selectionStart ≥ ed.m_selectionEnd) :
    ∃ ed', keyPressEvent env ed .Key_Delete = some ed' ∧ ed'.m_tco = some tco ∧
      ed'.m_selectionStart = ed.m_selectionStart ∧ ed'.m_selectionEnd = ed.m_selectionEnd ∧
      ed'.rightTCOs = ed.rightTCOs ∧ ed'.calls = ed.calls := by
  rw [keyPressEvent_delete_rejected env ed tco h_tco (Or.inl h_ge)]
  exact ⟨_, rfl, h_tco, rfl, rfl, rfl, rfl⟩

/-- C7 on a clip of length 100 with the empty selection `(40, 40)`. -/
theorem delete_empty_selection_witness :
    ∃ ed', keyPressEvent engine48 (editorOf (some (clipOf 300 100 4800)) 40 40) .Key_Delete
        = some ed' ∧ ed'.m_tco = some (clipOf 300 100 4800) ∧
      ed'.m_selectionStart = 40 ∧ ed'.m_selectionEnd = 40 ∧
      ed'.rightTCOs = [] ∧ ed'.calls = [] :=
  delete_empty_selection engine48 (editorOf (some (clipOf 300 100 4800)) 40 40)
    (clipOf 300 100 4800) rfl (by decide)

/-- C8, the code at the failing input: on a clip of length 100 the Delete key
with the selection `(0, 100)` is not rejected. The handler adds a journal
checkpoint, calls `removeSection(0, 4800)` and `changeLength(0)`, and the clip
is left with length 0. -/
theorem delete_whole_clip_leaves_zero_length :
    (0 : Int) < (clipOf 300 100 4800).length ∧
    (keyPressEvent engine48 (editorOf (some (clipOf 300 100 4800)) 0 100) .Key_Delete).map
      (fun ed' => (ed'.m_tco.map (fun c => c.length), ed'.calls)) =
      some (some 0,
        [.addJournalCheckPoint, .saveJournallingState false, .removeSection 0 4800,
          .updateTrackTcos, .changeLength .current 0, .restoreJournallingState, .repaint]) := by
  decide

/-- C9, the code at the failing input: a left-button press at pixel 59 (tick
-5), a drag to pixel 114 (tick 50) and the release leave the selection
`(-5, 50)`; the Delete key then calls `removeSection(-240, 2400)` and
`changeLength(45)` on the clip of length 100. -/
theorem delete_negative_start_reaches_buffer :
    ((mousePressEvent engine48 (editorOf (some (clipOf 300 100 4800)) 0 0)
        ⟨59, 50, .LeftButton⟩).bind
      (fun pressed =>
        keyPressEvent engine48
          (mouseReleaseEvent (mouseMoveEvent engine48 pressed ⟨114, 50, .NoButton⟩)
            ⟨114, 50, .LeftButton⟩) .Key_Delete)).map
      (fun ed' => (ed'.m_selectionStart, ed'.m_selectionEnd, ed'.m_tco.map (fun c => c.length),
        ed'.calls)) =
      some (-5, 50, some 45,
        [.update, .repaint, .addJournalCheckPoint, .saveJournallingState false,
          .removeSection (-240) 2400, .updateTrackTcos, .changeLength .current 45,
          .restoreJournallingState, .repaint]) := by
  decide

/-! ### Selection by a left-button drag -/

/-- A left-button press with no action in progress begins a selection at the
press tick. -/
theorem mousePressEvent_left (env : Engine) (ed : SampleEditor) (ev : QMouseEvent)
    (h_btn : ev.button = .LeftButton) (h_none : ed.m_action = .NONE) :
    mousePressEvent env ed ev =
      some { ed with
        m_mouseStartX := ev.x
        m_mouseDownLeft := true
        m_action := .SELECT
        m_selectionStart := ed.tickOfXCoord env ev.x
        m_selectionEnd := ed.tickOfXCoord env ev.x } := by
  simp [mousePressEvent, h_btn, beginSelection, h_none, tickOfXCoord]

/-- A pointer move inside the viewport during a selection drag writes the
pointer tick to one selection bound, chosen by the side of the press pixel. -/
theorem mouseMoveEvent_dragging (env : Engine) (ed : SampleEditor) (ev : QMouseEvent)
    (h_drag : Dragging ed) (h_y : TOP_MARGIN < ev.y) :
    mouseMoveEvent env ed ev =
      if ev.x > ed.m_mouseStartX then
        { ed with
          m_mouseCurrentX := ev.x
          m_selectionEnd := ed.tickOfXCoord env ev.x
          calls := ed.calls ++ [.update] }
      else
        { ed with
          m_mouseCurrentX := ev.x
          m_selectionStart := ed.tickOfXCoord env ev.x
          calls := ed.calls ++ [.update] } := by
  obtain ⟨hv, ha, hl⟩ := h_drag
  simp only [mouseMoveEvent, hv, h_y, ha, hl, log, tickOfXCoord, Bool.not_true, if_true,
    Bool.false_eq_true, if_false]
  split <;> rfl

/-- The pixel-to-tick map is strictly increasing at fixed zoom and scroll
position. -/
theorem tickOfXCoord_lt_iff (env : Engine) (ed : SampleEditor) (x y : Int) :
    ed.tickOfXCoord env x < ed.tickOfXCoord env y ↔ x < y := by
  unfold tickOfXCoord
  omega

/-- What pointer moves inside the viewport keep fixed during a drag, and the
bound that stays at its value while the pointer stays on one side of the press
pixel. -/
theorem drag_invariant (env : Engine) (moves : List QMouseEvent) :
    ∀ ed : SampleEditor, Dragging ed → (∀ m ∈ moves, TOP_MARGIN < m.y) →
      Dragging (drag env ed moves) ∧
      (drag env ed moves).m_mouseStartX = ed.m_mouseStartX ∧
      (drag env ed moves).m_ppb = ed.m_ppb ∧
      (drag env ed moves).m_currentPosition = ed.m_currentPosition ∧
      ((∀ m ∈ moves, ed.m_mouseStartX < m.x) →
        (drag env ed moves).m_selectionStart = ed.m_selectionStart) ∧
      ((∀ m ∈ moves, m.x ≤ ed.m_mouseStartX) →
        (drag env ed moves).m_selectionEnd = ed.m_selectionEnd) := by
  induction moves with
  | nil => intro ed h _; exact ⟨h, rfl, rfl, rfl, fun _ => rfl, fun _ => rfl⟩
  | cons m rest ih =>
    intro ed h hy
    have hm : TOP_MARGIN < m.y := hy m (List.mem_cons_self _ _)
    have hrest : ∀ m' ∈ rest, TOP_MARGIN < m'.y := fun m' hm' => hy m' (List.mem_cons_of_mem _ hm')
    have hstep := mouseMoveEvent_dragging env ed m h hm
    have hd : Dragging (mouseMoveEvent env ed m) := by
      rw [hstep]; obtain ⟨hv, ha, hl⟩ := h
      split <;> exact ⟨hv, ha, hl⟩
    have hx : (mouseMoveEvent env ed m).m_mouseStartX = ed.m_mouseStartX := by
      rw [hstep]; split <;> rfl
    have hp : (mouseMoveEvent env ed m).m_ppb = ed.m_ppb := by
      rw [hstep]; split <;> rfl
    have hc : (mouseMoveEvent env ed m).m_currentPosition = ed.m_currentPosition := by
      rw [hstep]; split <;> rfl
    obtain ⟨i1, i2, i3, i4, i5, i6⟩ := ih (mouseMoveEvent env ed m) hd hrest
    have hfold : drag env ed (m :: rest) = drag env (mouseMoveEvent env ed m) rest := rfl
    rw [hfold]
    refine ⟨i1, by rw [i2, hx], by rw [i3, hp], by rw [i4, hc], ?_, ?_⟩
    · intro hall
      have hmx : ed.m_mouseStartX < m.x := hall m (List.mem_cons_self _ _)
      rw [i5 (fun m' hm' => by rw [hx]; exact hall m' (List.mem_cons_of_mem _ hm'))]
      rw [hstep, if_pos hmx]
    · intro hall
      have hmx : ¬ (m.x > ed.m_mouseStartX) := not_lt.mpr (hall m (List.mem_cons_self _ _))
      rw [i6 (fun m' hm' => by rw [hx]; exact hall m' (List.mem_cons_of_mem _ hm'))]
      rw [hstep, if_neg hmx]

/-- C10, as stated, fails for a drag that crosses back over the press point:
press at pixel 164 (tick 100), move to pixel 214 (tick 150), then to pixel 144
(tick 80). The tie-break rule gives `(80, 100)`; the handler leaves
`(80, 150)`. -/
theorem drag_crossing_counterexample :
    (mousePressEvent engine48 (editorOf (some (clipOf 300 200 9600)) 0 0)
        ⟨164, 50, .LeftButton⟩).map
      (fun pressed =>
        ((drag engine48 pressed [⟨214, 50, .NoButton⟩, ⟨144, 50, .NoButton⟩]).m_selectionStart,
          (drag engine48 pressed [⟨214, 50, .NoButton⟩, ⟨144, 50, .NoButton⟩]).m_selectionEnd))
      = some (80, 150) ∧
    tickOfXCoord engine48 (editorOf (some (clipOf 300 200 9600)) 0 0) 164 = 100 ∧
    tickOfXCoord engine48 (editorOf (some (clipOf 300 200 9600)) 0 0) 144 = 80 ∧
    ¬ ((80 : Int) > 100) ∧ ((80 : Int), (150 : Int)) ≠ (80, 100) := by
  decide

/-- C10, amended: in a left-button drag begun with a clip bound and no action
in progress, at press tick `p`, every pointer move inside the viewport to tick
`q` writes one bound and keeps the other: `end = q` if `q > p`, otherwise
`start = q`. While all moves so far lie on one side of the press point the
selection follows the tie-break rule: `(p, q)` if all ticks are greater than
`p`, `(q, p)` if none is. -/
theorem drag_selection (env : Engine) (ed : SampleEditor) (press : QMouseEvent)
    (h_btn : press.button = .LeftButton) (h_none : ed.m_action = .NONE)
    (h_valid : ed.validTCO = true) :
    ∃ pressed, mousePressEvent env ed press = some pressed ∧
      pressed.m_selectionStart = ed.tickOfXCoord env press.x ∧
      pressed.m_selectionEnd = ed.tickOfXCoord env press.x ∧
      ∀ (moves : List QMouseEvent) (move : QMouseEvent),
        (∀ m ∈ moves, TOP_MARGIN < m.y) → TOP_MARGIN < move.y →
        (ed.tickOfXCoord env move.x > ed.tickOfXCoord env press.x →
          (mouseMoveEvent env (drag env pressed moves) move).m_selectionEnd =
            ed.tickOfXCoord env move.x ∧
          (mouseMoveEvent env (drag env pressed moves) move).m_selectionStart =
            (drag env pressed moves).m_selectionStart) ∧
        (ed.tickOfXCoord env move.x ≤ ed.tickOfXCoord env press.x →
          (mouseMoveEvent env (drag env pressed moves) move).m_selectionStart =
            ed.tickOfXCoord env move.x ∧
          (mouseMoveEvent env (drag env pressed moves) move).m_selectionEnd =
            (drag env pressed moves).m_selectionEnd) ∧
        ((∀ m ∈ moves, ed.tickOfXCoord env m.x > ed.tickOfXCoord env press.x) →
          ed.tickOfXCoord env move.x > ed.tickOfXCoord env press.x →
          (mouseMoveEvent env (drag env pressed moves) move).m_selectionStart =
            ed.tickOfXCoord env press.x ∧
          (mouseMoveEvent env (drag env pressed moves) move).m_selectionEnd =
            ed.tickOfXCoord env move.x) ∧
        ((∀ m ∈ moves, ed.tickOfXCoord env m.x ≤ ed.tickOfXCoord env press.x) →
          ed.tickOfXCoord env move.x ≤ ed.tickOfXCoord env press.x →
          (mouseMoveEvent env (drag env pressed moves) move).m_selectionStart =
            ed.tickOfXCoord env move.x ∧
          (mouseMoveEvent env (drag env pressed moves) move).m_selectionEnd =
            ed.tickOfXCoord env press.x) := by
  refine ⟨_, mousePressEvent_left env ed press h_btn h_none, rfl, rfl, ?_⟩
  intro moves move hys hy
  set pressed : SampleEditor :=
    { ed with
      m_mouseStartX := press.x
      m_mouseDownLeft := true
      m_action := .SELECT
      m_selectionStart := ed.tickOfXCoord env press.x
      m_selectionEnd := ed.tickOfXCoord env press.x } with hpressed
  have hd0 : Dragging pressed := ⟨h_valid, rfl, rfl⟩
  obtain ⟨hd, hx, hp, hc, hstart, hend⟩ := drag_invariant env moves pressed hd0 hys
  have hstep := mouseMoveEvent_dragging env (drag env pressed moves) move hd hy
  have hx' : (drag env pressed moves).m_mouseStartX = press.x := hx
  have htick : ∀ x, (drag env pressed moves).tickOfXCoord env x = ed.tickOfXCoord env x := by
    intro x
    have hp' : (drag env pressed moves).m_ppb = ed.m_ppb := hp
    have hc' : (drag env pressed moves).m_currentPosition = ed.m_currentPosition := hc
    simp only [tickOfXCoord, hp', hc']
  have hgt : ∀ x, ed.tickOfXCoord env x > ed.tickOfXCoord env press.x ↔ x > press.x :=
    fun x => tickOfXCoord_lt_iff env ed press.x x
  have hle : ∀ x, ed.tickOfXCoord env x ≤ ed.tickOfXCoord env press.x ↔ x ≤ press.x := by
    intro x
    have := tickOfXCoord_lt_iff env ed press.x x
    constructor
    · intro h; by_contra hn; exact absurd (this.mpr (not_le.mp hn)) (not_lt.mpr h)
    · intro h; by_contra hn; exact absurd (this.mp (not_le.mp hn)) (not_lt.mpr h)
  have right_move : ed.tickOfXCoord env move.x > ed.tickOfXCoord env press.x →
      (mouseMoveEvent env (drag env pressed moves) move).m_selectionEnd =
        ed.tickOfXCoord env move.x ∧
      (mouseMoveEvent env (drag env pressed moves) move).m_selectionStart =
        (drag env pressed moves).m_selectionStart := by
    intro hq
    have hcond : move.x > (drag env pressed moves).m_mouseStartX := by
      rw [hx']; exact (hgt move.x).mp hq
    rw [hstep, if_pos hcond]
    exact ⟨htick move.x, rfl⟩
  have left_move : ed.tickOfXCoord env move.x ≤ ed.tickOfXCoord env press.x →
      (mouseMoveEvent env (drag env pressed moves) move).m_selectionStart =
        ed.tickOfXCoord env move.x ∧
      (mouseMoveEvent env (drag env pressed moves) move).m_selectionEnd =
        (drag env pressed moves).m_selectionEnd := by
    intro hq
    have hcond : ¬ (move.x > (drag env pressed moves).m_mouseStartX) := by
      rw [hx']; exact not_lt.mpr ((hle move.x).mp hq)
    rw [hstep, if_neg hcond]
    exact ⟨htick move.x, rfl⟩
  refine ⟨right_move, left_move, ?_, ?_⟩
  · intro hall hq
    obtain ⟨h1, h2⟩ := right_move hq
    refine ⟨?_, h1⟩
    rw [h2]
    exact hstart (fun m hm => (hgt m.x).mp (hall m hm))
  · intro hall hq
    obtain ⟨h1, h2⟩ := left_move hq
    refine ⟨h1, ?_⟩
    rw [h2]
    exact hend (fun m hm => (hle m.x).mp (hall m hm))

/-- C10 (amended) on a drag to the right: press at pixel 164 (tick 100), moves
to pixels 214 and 184; the selection after the second move is
`(100, 120)`. -/
theorem drag_selection_witness :
    ∃ pressed,
      mousePressEvent engine48 (editorOf (some (clipOf 300 200 9600)) 0 0)
        ⟨164, 50, .LeftButton⟩ = some pressed ∧
      (mouseMoveEvent engine48 (drag engine48 pressed [⟨214, 50, .NoButton⟩])
        ⟨184, 50, .NoButton⟩).m_selectionStart = 100 ∧
      (mouseMoveEvent engine48 (drag engine48 pressed [⟨214, 50, .NoButton⟩])
        ⟨184, 50, .NoButton⟩).m_selectionEnd = 120 := by
  obtain ⟨pressed, hp, _, _, h⟩ :=
    drag_selection engine48 (editorOf (some (clipOf 300 200 9600)) 0 0)
      ⟨164, 50, .LeftButton⟩ rfl rfl rfl
  obtain ⟨_, _, hr, _⟩ := h [⟨214, 50, .NoButton⟩] ⟨184, 50, .NoButton⟩
    (by intro m hm; simp at hm; subst hm; decide) (by decide)
  exact ⟨pressed, hp, hr (by intro m hm; simp at hm; subst hm; decide) (by decide)⟩

/-! ### Validity of the selection during a drag -/

/-- A pointer move keeps the press pixel, the zoom and the scroll position, and
keeps the selection bounds on their sides of the tick of the press pixel. -/
theorem mouseMoveEvent_order (env : Engine) (ed : SampleEditor) (ev : QMouseEvent)
    (h : ed.m_selectionStart ≤ ed.tickOfXCoord env ed.m_mouseStartX ∧
      ed.tickOfXCoord env ed.m_mouseStartX ≤ ed.m_selectionEnd) :
    (mouseMoveEvent env ed ev).m_mouseStartX = ed.m_mouseStartX ∧
    (mouseMoveEvent env ed ev).m_ppb = ed.m_ppb ∧
    (mouseMoveEvent env ed ev).m_currentPosition = ed.m_currentPosition ∧
    (mouseMoveEvent env ed ev).m_selectionStart ≤ ed.tickOfXCoord env ed.m_mouseStartX ∧
    ed.tickOfXCoord env ed.m_mouseStartX ≤ (mouseMoveEvent env ed ev).m_selectionEnd := by
  obtain ⟨h1, h2⟩ := h
  unfold mouseMoveEvent
  cases hv : ed.validTCO
  · simp [log, h1, h2]
  · by_cases hy : ev.y > TOP_MARGIN
    · cases ha : ed.m_action <;> cases hl : ed.m_mouseDownLeft <;>
        simp [log, hy, ha, hl, h1, h2]
      by_cases hx : ev.x > ed.m_mouseStartX
      · simp [hx, h1]
        unfold tickOfXCoord at *
        simp
        omega
      · simp [hx, h2]
        unfold tickOfXCoord at *
        simp
        omega
    · simp [log, hy, h1, h2]

/-- The order of the selection bounds is kept by every sequence of pointer
moves. -/
theorem drag_order (env : Engine) (moves : List QMouseEvent) :
    ∀ ed : SampleEditor,
      ed.m_selectionStart ≤ ed.tickOfXCoord env ed.m_mouseStartX ∧
        ed.tickOfXCoord env ed.m_mouseStartX ≤ ed.m_selectionEnd →
      (drag env ed moves).m_selectionStart ≤ ed.tickOfXCoord env ed.m_mouseStartX ∧
        ed.tickOfXCoord env ed.m_mouseStartX ≤ (drag env ed moves).m_selectionEnd := by
  induction moves with
  | nil => intro ed h; exact h
  | cons m rest ih =>
    intro ed h
    obtain ⟨hx, hp, hc, h1, h2⟩ := mouseMoveEvent_order env ed m h
    have htick : (mouseMoveEvent env ed m).tickOfXCoord env (mouseMoveEvent env ed m).m_mouseStartX
        = ed.tickOfXCoord env ed.m_mouseStartX := by
      simp only [tickOfXCoord, hx, hp, hc]
    have hfold : drag env ed (m :: rest) = drag env (mouseMoveEvent env ed m) rest := rfl
    rw [hfold]
    have := ih (mouseMoveEvent env ed m) (by rw [htick]; exact ⟨h1, h2⟩)
    rw [htick] at this
    exact this

/-- What the right-button branch keeps when it returns. -/
theorem knife_keeps (env : Engine) (ed k : SampleEditor) (t : Int)
    (h : knife env ed t = some k) :
    k.m_action = ed.m_action ∧ k.m_mouseStartX = ed.m_mouseStartX ∧ k.m_ppb = ed.m_ppb ∧
      k.m_currentPosition = ed.m_currentPosition := by
  unfold knife at h
  by_cases h0 : t > 0
  · cases htco : ed.m_tco with
    | none => simp [h0, htco] at h
    | some tco =>
      by_cases h1 : t < tco.length
      · simp only [h0, htco, h1, if_true, Option.some.injEq] at h
        subst h
        simp [splitTCO, log]
      · simp only [h0, htco, h1, if_true, if_false, Option.some.injEq] at h
        subst h
        simp
  · simp only [h0, if_false, Option.some.injEq] at h
    subst h
    simp

/-- With a clip bound every press returns: it ends with the selection block,
run on a state that has the action of the state before the press, the press
pixel, and the zoom and scroll position of the state before the press. -/
theorem mousePressEvent_bound (env : Engine) (ed : SampleEditor) (tco : SampleTCO)
    (ev : QMouseEvent) (h_tco : ed.m_tco = some tco) :
    ∃ k, mousePressEvent env ed ev = some (beginSelection k (ed.tickOfXCoord env ev.x)) ∧
      k.m_action = ed.m_action ∧ k.m_mouseStartX = ev.x ∧ k.m_ppb = ed.m_ppb ∧
      k.m_currentPosition = ed.m_currentPosition := by
  have ht : tickOfXCoord env { ed with m_mouseStartX := ev.x } ev.x = ed.tickOfXCoord env ev.x := rfl
  cases hb : ev.button with
  | LeftButton =>
    refine ⟨{ ed with m_mouseStartX := ev.x, m_mouseDownLeft := true }, ?_, rfl, rfl, rfl, rfl⟩
    simp [mousePressEvent, hb, ht]
  | NoButton =>
    refine ⟨{ ed with m_mouseStartX := ev.x }, ?_, rfl, rfl, rfl, rfl⟩
    simp [mousePressEvent, hb, ht]
  | RightButton =>
    by_cases hin : 0 < ed.tickOfXCoord env ev.x ∧ ed.tickOfXCoord env ev.x < tco.length
    · refine ⟨_, mousePressEvent_right_interior env ed tco ev h_tco hb hin.1 hin.2, ?_⟩
      simp [splitTCO, log]
    · refine ⟨_, mousePressEvent_right_outside env ed tco ev h_tco hb (by omega), ?_⟩
      simp

/-- C11, as stated, fails for a press made while an action is in progress. A
left-button press at pixel 164 (tick 100) and a move to pixel 214 leave the
selection `(100, 150)`. A right-button press at pixel 30 (tick -34) while the
left button is held leaves the selection `(100, 150)`, not `(-34, -34)`, and
the next move to pixel 50 gives the selection `(100, -14)`. -/
theorem selection_stays_valid_counterexample :
    (run engine48 (editorOf (some (clipOf 300 200 9600)) 0 0)
        [.mousePressEvent ⟨164, 50, .LeftButton⟩, .mouseMoveEvent ⟨214, 50, .NoButton⟩]).map
      (fun held => (held.m_selectionStart, held.m_selectionEnd, tickOfXCoord engine48 held 30)) =
      some (100, 150, -34) ∧
    (run engine48 (editorOf (some (clipOf 300 200 9600)) 0 0)
        [.mousePressEvent ⟨164, 50, .LeftButton⟩, .mouseMoveEvent ⟨214, 50, .NoButton⟩]).bind
      (fun held => (mousePressEvent engine48 held ⟨30, 50, .RightButton⟩).map
        (fun pressed =>
          (pressed.m_selectionStart, pressed.m_selectionEnd,
            (drag engine48 pressed [⟨50, 50, .NoButton⟩]).m_selectionStart,
            (drag engine48 pressed [⟨50, 50, .NoButton⟩]).m_selectionEnd))) =
      some (100, 150, 100, -14) ∧
    ¬ ((100 : Int) ≤ -14) := by
  decide

/-- C11, amended: with a clip bound and no action in progress (`m_action` is
`NONE`), right after a mouse press the selection is `start = end = press tick`,
and after every sequence of pointer moves handled by `mouseMoveEvent` that
follows this press (scroll position and zoom are not changed by moves)
`start <= end` holds. -/
theorem selection_stays_valid (env : Engine) (ed : SampleEditor) (tco : SampleTCO)
    (press : QMouseEvent) (h_tco : ed.m_tco = some tco) (h_none : ed.m_action = .NONE) :
    ∃ pressed, mousePressEvent env ed press = some pressed ∧
      pressed.m_selectionStart = ed.tickOfXCoord env press.x ∧
      pressed.m_selectionEnd = ed.tickOfXCoord env press.x ∧
      pressed.m_selectionStart ≤ pressed.m_selectionEnd ∧
      ∀ moves : List QMouseEvent,
        (drag env pressed moves).m_selectionStart ≤ (drag env pressed moves).m_selectionEnd := by
  obtain ⟨k, hk, ha, hx, hp, hc⟩ := mousePressEvent_bound env ed tco press h_tco
  have hka : k.m_action = .NONE := by rw [ha, h_none]
  have hb : beginSelection k (ed.tickOfXCoord env press.x) =
      { k with
        m_action := .SELECT
        m_selectionStart := ed.tickOfXCoord env press.x
        m_selectionEnd := ed.tickOfXCoord env press.x } := by
    simp [beginSelection, hka]
  refine ⟨_, hk, ?_, ?_, ?_, ?_⟩
  · rw [hb]
  · rw [hb]
  · rw [hb]
  · intro moves
    rw [hb]
    have htick : tickOfXCoord env
        { k with
          m_action := .SELECT
          m_selectionStart := ed.tickOfXCoord env press.x
          m_selectionEnd := ed.tickOfXCoord env press.x } k.m_mouseStartX
        = ed.tickOfXCoord env press.x := by
      simp only [tickOfXCoord, hx, hp, hc]
    have := drag_order env moves
      { k with
        m_action := .SELECT
        m_selectionStart := ed.tickOfXCoord env press.x
        m_selectionEnd := ed.tickOfXCoord env press.x }
      (by rw [htick]; exact ⟨le_refl _, le_refl _⟩)
    exact le_trans this.1 this.2

/-- C11 (amended) on a drag that crosses the press point: press at pixel 164
(tick 100), moves to pixels 214 and 144; the selection after the moves is
ordered. -/
theorem selection_stays_valid_witness :
    ∃ pressed,
      mousePressEvent engine48 (editorOf (some (clipOf 300 200 9600)) 0 0)
        ⟨164, 50, .LeftButton⟩ = some pressed ∧
      pressed.m_selectionStart = 100 ∧ pressed.m_selectionEnd = 100 ∧
      (drag engine48 pressed [⟨214, 50, .NoButton⟩, ⟨144, 50, .NoButton⟩]).m_selectionStart ≤
        (drag engine48 pressed [⟨214, 50, .NoButton⟩, ⟨144, 50, .NoButton⟩]).m_selectionEnd := by
  obtain ⟨pressed, hp, hs, he, _, h⟩ :=
    selection_stays_valid engine48 (editorOf (some (clipOf 300 200 9600)) 0 0)
      (clipOf 300 200 9600) ⟨164, 50, .LeftButton⟩ rfl rfl
  exact ⟨pressed, hp, hs, he, h _⟩

/-! ### Right-button press and the selection mode -/

/-- C12, the code at the failing input: on an idle editor with selection
`(10, 20)` a right-button press at tick 40 (pixel 104) of a clip of length 100
performs the split, and the selection block that ends the handler then sets
the action to `SELECT` and the selection to `(40, 40)`. -/
theorem right_press_enters_selection :
    (editorOf (some (clipOf 300 100 4800)) 10 20).m_action = .NONE ∧
    tickOfXCoord engine48 (editorOf (some (clipOf 300 100 4800)) 10 20) 104 = 40 ∧
    (mousePressEvent engine48 (editorOf (some (clipOf 300 100 4800)) 10 20)
        ⟨104, 50, .RightButton⟩).map
      (fun ed' => (ed'.m_action, ed'.m_selectionStart, ed'.m_selectionEnd,
        ed'.rightTCOs.map (fun c => c.length))) = some (.SELECT, 40, 40, [60]) := by
  decide

/-! ### Reverse -/

/-- The slot `reverse` on a bound clip: the flag of the buffer is negated and
four calls are made. -/
theorem reverse_bound (ed : SampleEditor) (tco : SampleTCO) (h_tco : ed.m_tco = some tco) :
    reverse ed = some
      { ed with
        m_tco := some
          { tco with sampleBuffer :=
              { tco.sampleBuffer with reversed := !tco.sampleBuffer.reversed } }
        calls := ed.calls ++
          [.setReversed (!tco.sampleBuffer.reversed), .updateTrackTcos, .update,
            .wasReversed] } := by
  simp [reverse, h_tco, log, SampleBuffer.setReversed]

/-- C13: for a bound clip, `reverse` invoked twice returns the buffer's
reversed flag to its original value, and neither call changes the stored
samples, the frame count, or the clip's length and position. -/
theorem reverse_twice (ed : SampleEditor) (tco : SampleTCO) (h_tco : ed.m_tco = some tco) :
    ∃ ed1 tco1 ed2 tco2,
      reverse ed = some ed1 ∧ ed1.m_tco = some tco1 ∧
      reverse ed1 = some ed2 ∧ ed2.m_tco = some tco2 ∧
      tco1.sampleBuffer.reversed = (!tco.sampleBuffer.reversed) ∧
      tco2.sampleBuffer.reversed = tco.sampleBuffer.reversed ∧
      tco1.sampleBuffer.data = tco.sampleBuffer.data ∧
      tco2.sampleBuffer.data = tco.sampleBuffer.data ∧
      tco1.sampleBuffer.frames = tco.sampleBuffer.frames ∧
      tco2.sampleBuffer.frames = tco.sampleBuffer.frames ∧
      tco1.length = tco.length ∧ tco2.length = tco.length ∧
      tco1.startPosition = tco.startPosition ∧ tco2.startPosition = tco.startPosition := by
  have h1 := reverse_bound ed tco h_tco
  have h2 := reverse_bound _ _
    (show ({ ed with
        m_tco := some
          { tco with sampleBuffer :=
              { tco.sampleBuffer with reversed := !tco.sampleBuffer.reversed } }
        calls := ed.calls ++
          [.setReversed (!tco.sampleBuffer.reversed), .updateTrackTcos, .update,
            .wasReversed] } : SampleEditor).m_tco = some _ from rfl)
  refine ⟨_, _, _, _, h1, rfl, h2, rfl, rfl, ?_, rfl, rfl, rfl, rfl, rfl, rfl, rfl, rfl⟩
  simp

/-- C13 on a clip of length 100 with 4800 frames that is not reversed: after
two calls the flag is `false` again and the length is 100. -/
theorem reverse_twice_witness :
    ∃ ed1 tco1 ed2 tco2,
      reverse (editorOf (some (clipOf 300 100 4800)) 0 0) = some ed1 ∧ ed1.m_tco = some tco1 ∧
      reverse ed1 = some ed2 ∧ ed2.m_tco = some tco2 ∧
      tco1.sampleBuffer.reversed = true ∧ tco2.sampleBuffer.reversed = false ∧
      tco2.sampleBuffer.data = (bufferOf 4800).data ∧ tco2.length = 100 ∧
      tco2.startPosition = 300 := by
  obtain ⟨ed1, tco1, ed2, tco2, h1, h2, h3, h4, r1, r2, _, d2, _, _, _, l2, _, p2⟩ :=
    reverse_twice (editorOf (some (clipOf 300 100 4800)) 0 0) (clipOf 300 100 4800) rfl
  exact ⟨ed1, tco1, ed2, tco2, h1, h2, h3, h4, r1, r2, d2, l2, p2⟩

/-! ### Handlers without a bound clip -/

/-- C14, the code at the failing input: with no clip bound (`m_tco` null, the
state after construction) `reverse`, the Delete key, a right-button press at
a positive tick and a double click all read the missing clip; none of them
returns. -/
theorem edit_handlers_read_missing_clip :
    reverse (editorOf none 0 0) = none ∧
    keyPressEvent engine48 (editorOf none 0 0) .Key_Delete = none ∧
    mousePressEvent engine48 (editorOf none 0 0) ⟨104, 50, .RightButton⟩ = none ∧
    mouseDoubleClickEvent ⟨48, 0⟩ (fun _ => bufferOf 0) (editorOf none 0 0) "sample.wav"
      = none ∧
    mouseDoubleClickEvent ⟨48, 0⟩ (fun _ => bufferOf 0) (editorOf none 0 0) "" = none := by
  decide

/-! ### Transport -/

/-- C15: with no clip bound, `play`, `stop`, `record` and `recordAccompany`
return the editor state they were given, for every state of the song: nothing
is added to the trace (no play, stop or record command, no journal
checkpoint) and `m_recording` and `m_scrollBack` are unchanged. -/
theorem transport_without_clip (song : Transport) (ed : SampleEditor)
    (h_tco : ed.m_tco = none) :
    play song ed = ed ∧ stop song ed = ed ∧ record song ed = ed ∧
      recordAccompany song ed = ed := by
  have hstop : stop song ed = ed := by simp [stop, h_tco]
  refine ⟨?_, hstop, ?_, ?_⟩
  · simp [play, validTCO, h_tco]
  · unfold record
    simp only [hstop, ite_self]
    cases ed.m_recording <;> simp [h_tco]
  · unfold recordAccompany
    simp only [hstop, ite_self]
    cases ed.m_recording <;> simp [h_tco]

/-- C15 on the editor without a clip while the song is playing. -/
theorem transport_without_clip_witness :
    play ⟨true, false, .song⟩ (editorOf none 0 0) = editorOf none 0 0 ∧
    stop ⟨true, false, .song⟩ (editorOf none 0 0) = editorOf none 0 0 ∧
    record ⟨true, false, .song⟩ (editorOf none 0 0) = editorOf none 0 0 ∧
    recordAccompany ⟨true, false, .song⟩ (editorOf none 0 0) = editorOf none 0 0 :=
  transport_without_clip ⟨true, false, .song⟩ (editorOf none 0 0) rfl

/-- C17: for a bound clip with the song not playing, `record` on an editor that
is not recording appends to the trace, in this order, the journal checkpoint
on the clip, `setRecord(true)`, the assignment `m_recording = true`, the
engine's record command and `playSample(m_tco, false)`, and leaves the clip's
record flag and `m_recording` true; on an editor that is already recording it
returns the state it was given. -/
theorem record_transition (song : Transport) (ed : SampleEditor) (tco : SampleTCO)
    (h_tco : ed.m_tco = some tco) (h_song : song.isPlaying = false) :
    (ed.m_recording = false →
      record song ed =
        { ed with
          m_tco := some { tco with record := true }
          m_recording := true
          calls := ed.calls ++
            [.tcoAddJournalCheckPoint, .setRecord true, .m_recording true, .songRecord,
              .playSample (some false)] }) ∧
    (ed.m_recording = true → record song ed = ed) := by
  constructor
  · intro hr
    simp [record, h_song, hr, h_tco, startRecording, log, SampleTCO.setRecord]
  · intro hr
    simp [record, h_song, hr]

/-- C17 on a clip of length 100 with the song stopped: the first `record`
starts recording, a second `record` changes nothing. -/
theorem record_transition_witness :
    (record ⟨false, true, .song⟩ (editorOf (some (clipOf 300 100 4800)) 0 0)).calls =
      [.tcoAddJournalCheckPoint, .setRecord true, .m_recording true, .songRecord,
        .playSample (some false)] ∧
    (record ⟨false, true, .song⟩ (editorOf (some (clipOf 300 100 4800)) 0 0)).m_recording
      = true ∧
    record ⟨false, true, .song⟩
        { editorOf (some (clipOf 300 100 4800)) 0 0 with m_recording := true } =
      { editorOf (some (clipOf 300 100 4800)) 0 0 with m_recording := true } := by
  have h1 := (record_transition ⟨false, true, .song⟩ (editorOf (some (clipOf 300 100 4800)) 0 0)
    (clipOf 300 100 4800) rfl rfl).1 rfl
  have h2 := (record_transition ⟨false, true, .song⟩
    { editorOf (some (clipOf 300 100 4800)) 0 0 with m_recording := true }
    (clipOf 300 100 4800) rfl rfl).2 rfl
  rw [h1]
  exact ⟨rfl, rfl, h2⟩

/-! ### Double click: reload of the sample file -/

/-- The double click whose chooser returns the loaded path: only the length of
the clip changes. -/
theorem mouseDoubleClickEvent_same_path (framesPerTick : FramesPerTick)
    (loadFile : String → SampleBuffer) (ed : SampleEditor) (tco : SampleTCO) (af : String)
    (h_tco : ed.m_tco = some tco) (h_path : af.isEmpty = false)
    (h_same : af = tco.sampleBuffer.audioFile) :
    mouseDoubleClickEvent framesPerTick loadFile ed af = some
      { ed with
        m_tco := some { tco with length := framesPerTick.ticks tco.sampleBuffer.frames }
        calls := ed.calls ++
          [.changeLength .current (framesPerTick.ticks tco.sampleBuffer.frames), .update] } := by
  simp [mouseDoubleClickEvent, h_tco, h_path, ← h_same, log, SampleTCO.changeLength]

/-- C16, as stated, fails: a clip whose buffer holds 11025 frames of
"sample.wav", with 648.529419 frames per tick (the `float`
`10625506 * 2 ^ -14`, the value at 85 bpm and 44100 Hz). The double click with
the loaded path sets the length to 17, the `float` quotient being 17.0, while
`floor(11025 / 648.529419)` is 16. With the integer 441 frames per tick and
16777845 frames (above `2 ^ 24`) the length is set to 38044, while
`floor(16777845 / 441)` is 38045. -/
theorem reload_same_path_counterexample :
    ((clipOf 300 70 11025).sampleBuffer.frames = 11025 ∧
      (mouseDoubleClickEvent ⟨10625506, -14⟩ (fun _ => bufferOf 0)
          (editorOf (some (clipOf 300 70 11025)) 0 0) "sample.wav").map
        (fun ed1 => ed1.m_tco.map (fun c => c.length)) = some (some 17) ∧
      ⌊(11025 : ℚ) / ((10625506 : ℚ) * 2 ^ (-14 : Int))⌋ = 16) ∧
    ((clipOf 300 70 16777845).sampleBuffer.frames = 16777845 ∧
      (mouseDoubleClickEvent ⟨441, 0⟩ (fun _ => bufferOf 0)
          (editorOf (some (clipOf 300 70 16777845)) 0 0) "sample.wav").map
        (fun ed1 => ed1.m_tco.map (fun c => c.length)) = some (some 38044) ∧
      ⌊(16777845 : ℚ) / (441 : ℚ)⌋ = 38045) := by
  have hF : (clipOf 300 70 11025).sampleBuffer.frames = ((11025 : Nat) : Int) :=
    frames_bufferOf 11025
  have hG : (clipOf 300 70 16777845).sampleBuffer.frames = ((16777845 : Nat) : Int) :=
    frames_bufferOf 16777845
  refine ⟨⟨hF, ?_, ?_⟩, ⟨hG, ?_, ?_⟩⟩
  · rw [mouseDoubleClickEvent_same_path ⟨10625506, -14⟩ (fun _ => bufferOf 0)
      (editorOf (some (clipOf 300 70 11025)) 0 0) (clipOf 300 70 11025) "sample.wav" rfl
      (by decide) rfl, hF]
    decide
  · rw [Int.floor_eq_iff]
    norm_num
  · rw [mouseDoubleClickEvent_same_path ⟨441, 0⟩ (fun _ => bufferOf 0)
      (editorOf (some (clipOf 300 70 16777845)) 0 0) (clipOf 300 70 16777845) "sample.wav" rfl
      (by decide) rfl, hG]
    decide
  · rw [Int.floor_eq_iff]
    norm_num

/-- C16, amended: when the chooser returns the path the buffer already has
loaded, the buffer is unchanged, no file is loaded and the clip length becomes
the `float` quotient `frames / framesPerTick` cast to `int`. When the number of
frames per tick is a positive integer `f` and the buffer holds fewer than
`2 ^ 24` frames, that length is `floor(frames / f)`. A second double click with
the same path leaves the clip as the first one did. When the chooser returns
the empty path the editor state is unchanged. -/
theorem reload_same_path (framesPerTick : FramesPerTick) (loadFile : String → SampleBuffer)
    (ed : SampleEditor) (tco : SampleTCO) (af : String) (h_tco : ed.m_tco = some tco)
    (h_path : af.isEmpty = false) (h_same : af = tco.sampleBuffer.audioFile) :
    (∃ ed1 tco1, mouseDoubleClickEvent framesPerTick loadFile ed af = some ed1 ∧
      ed1.m_tco = some tco1 ∧
      tco1.sampleBuffer = tco.sampleBuffer ∧
      tco1.length = framesPerTick.ticks tco.sampleBuffer.frames ∧
      (∀ f : Nat, 0 < f → framesPerTick = ⟨f, 0⟩ → tco.sampleBuffer.frames < 2 ^ 24 →
        tco1.length = ⌊(tco.sampleBuffer.frames : ℚ) / (f : ℚ)⌋) ∧
      Call.setSampleFile af ∉ ed1.calls.drop ed.calls.length ∧
      ∃ ed2, mouseDoubleClickEvent framesPerTick loadFile ed1 af = some ed2 ∧
        ed2.m_tco = some tco1) ∧
    mouseDoubleClickEvent framesPerTick loadFile ed "" = some ed := by
  constructor
  · have h1 := mouseDoubleClickEvent_same_path framesPerTick loadFile ed tco af h_tco h_path h_same
    have h2 := mouseDoubleClickEvent_same_path framesPerTick loadFile
      { ed with
        m_tco := some { tco with length := framesPerTick.ticks tco.sampleBuffer.frames }
        calls := ed.calls ++
          [.changeLength .current (framesPerTick.ticks tco.sampleBuffer.frames), .update] }
      { tco with length := framesPerTick.ticks tco.sampleBuffer.frames } af rfl h_path h_same
    refine ⟨_, _, h1, rfl, rfl, rfl, ?_, ?_, _, h2, rfl⟩
    · intro f h_f h_fpt h_small
      subst h_fpt
      exact FramesPerTick.ticks_of_integer f tco.sampleBuffer.frames
        (by simp [SampleBuffer.frames]) h_f h_small
    · simp
  · have h_empty : ("" : String).isEmpty = true := by decide
    simp [mouseDoubleClickEvent, h_tco, h_empty]

/-- C16 (amended) on a clip of length 70 whose buffer holds 4800 frames of
"sample.wav", with 48 frames per tick: the double click sets the length to
100, which is `floor(4800 / 48)`, twice. -/
theorem reload_same_path_witness :
    ∃ ed1 tco1,
      mouseDoubleClickEvent ⟨48, 0⟩ (fun _ => bufferOf 0)
        (editorOf (some (clipOf 300 70 4800)) 0 0) "sample.wav" = some ed1 ∧
      ed1.m_tco = some tco1 ∧ tco1.sampleBuffer = bufferOf 4800 ∧ tco1.length = 100 ∧
      tco1.length = ⌊(4800 : ℚ) / (48 : ℚ)⌋ ∧
      ∃ ed2, mouseDoubleClickEvent ⟨48, 0⟩ (fun _ => bufferOf 0) ed1 "sample.wav" = some ed2 ∧
        ed2.m_tco = some tco1 := by
  obtain ⟨⟨ed1, tco1, h1, ht, hb, _, hl, _, h2⟩, _⟩ :=
    reload_same_path ⟨48, 0⟩ (fun _ => bufferOf 0) (editorOf (some (clipOf 300 70 4800)) 0 0)
      (clipOf 300 70 4800) "sample.wav" rfl (by decide) rfl
  have hF : (clipOf 300 70 4800).sampleBuffer.frames = 4800 := frames_bufferOf 4800
  have hl48 := hl 48 (by decide) rfl (by rw [hF]; norm_num)
  rw [hF] at hl48
  refine ⟨ed1, tco1, h1, ht, hb, ?_, ?_, h2⟩
  · rw [hl48]; norm_num
  · rw [hl48]; norm_num

/-! ### Journal calls around the edits -/

/-- The trace of the deletion block is one journalled edit. -/
theorem bracketed_delete (a b len : Int) :
    Bracketed
        [.addJournalCheckPoint, .saveJournallingState false, .removeSection a b,
          .updateTrackTcos, .changeLength .current len, .restoreJournallingState, .repaint] ∧
      List.count Call.addJournalCheckPoint
        [.addJournalCheckPoint, .saveJournallingState false, .removeSection a b,
          .updateTrackTcos, .changeLength .current len, .restoreJournallingState, .repaint]
        = 1 := by
  refine ⟨⟨[.removeSection a b, .updateTrackTcos, .changeLength .current len], [.repaint],
    rfl, ?_, ?_⟩, ?_⟩
  · intro c hc
    simp only [List.mem_cons, List.mem_singleton, List.not_mem_nil, or_false] at hc
    rcases hc with rfl | rfl | rfl <;> rfl
  · intro c hc
    simp only [List.mem_singleton] at hc
    subst hc
    exact ⟨rfl, rfl⟩
  · simp [List.count_cons]

/-- The trace of the split block is one journalled edit. -/
theorem bracketed_split (t k frames len : Int) :
    Bracketed
        [.addJournalCheckPoint, .saveJournallingState false, .newSampleTCO,
          .movePosition .right t, .trim .right k frames, .changeLength .right len,
          .dataChanged .right, .trim .current 0 k, .changeLength .current t,
          .updateTrackTcos, .dataChanged .current, .restoreJournallingState] ∧
      List.count Call.addJournalCheckPoint
        [.addJournalCheckPoint, .saveJournallingState false, .newSampleTCO,
          .movePosition .right t, .trim .right k frames, .changeLength .right len,
          .dataChanged .right, .trim .current 0 k, .changeLength .current t,
          .updateTrackTcos, .dataChanged .current, .restoreJournallingState] = 1 := by
  refine ⟨⟨[.newSampleTCO, .movePosition .right t, .trim .right k frames,
      .changeLength .right len, .dataChanged .right, .trim .current 0 k,
      .changeLength .current t, .updateTrackTcos, .dataChanged .current], [],
    rfl, ?_, ?_⟩, ?_⟩
  · intro c hc
    simp only [List.mem_cons, List.mem_singleton, List.not_mem_nil, or_false] at hc
    rcases hc with rfl | rfl | rfl | rfl | rfl | rfl | rfl | rfl | rfl <;> rfl
  · intro c hc
    simp at hc
  · simp [List.count_cons]

/-- C18: with a clip bound, the calls a Delete key press or a right-button
press adds to the trace are, when the deletion or split is performed, one
journalled edit: one `addJournalCheckPoint` first, then one
`saveJournallingState(false)`, one `restoreJournallingState`, no other journal
call, and every `trim`, `removeSection` and `changeLength` between the save and
the restore. When the deletion or split is rejected nothing is added to the
trace. -/
theorem journal_brackets_edits (env : Engine) (ed : SampleEditor) (tco : SampleTCO)
    (ev : QMouseEvent) (h_tco : ed.m_tco = some tco) (h_btn : ev.button = .RightButton) :
    (∃ ed' new, keyPressEvent env ed .Key_Delete = some ed' ∧ ed'.calls = ed.calls ++ new ∧
      ((ed.m_selectionStart < ed.m_selectionEnd ∧ ed.m_selectionEnd ≤ tco.length) ∨
          (ed.m_selectionStart < tco.length ∧ tco.length < ed.m_selectionEnd) →
        Bracketed new ∧ new.count .addJournalCheckPoint = 1) ∧
      (¬ ((ed.m_selectionStart < ed.m_selectionEnd ∧ ed.m_selectionEnd ≤ tco.length) ∨
          (ed.m_selectionStart < tco.length ∧ tco.length < ed.m_selectionEnd)) →
        new = [])) ∧
    (∃ ed' new, mousePressEvent env ed ev = some ed' ∧ ed'.calls = ed.calls ++ new ∧
      (0 < ed.tickOfXCoord env ev.x ∧ ed.tickOfXCoord env ev.x < tco.length →
        Bracketed new ∧ new.count .addJournalCheckPoint = 1) ∧
      (¬ (0 < ed.tickOfXCoord env ev.x ∧ ed.tickOfXCoord env ev.x < tco.length) →
        new = [])) := by
  constructor
  · by_cases hin : ed.m_selectionStart < ed.m_selectionEnd ∧ ed.m_selectionEnd ≤ tco.length
    · obtain ⟨_, _, _, hcalls⟩ := deleteSelection_result env ed tco
      exact ⟨_, _, keyPressEvent_delete_inside env ed tco h_tco hin.1 hin.2, hcalls,
        fun _ => bracketed_delete _ _ _, fun hn => absurd (Or.inl hin) hn⟩
    · by_cases hcl : ed.m_selectionStart < tco.length ∧ tco.length < ed.m_selectionEnd
      · obtain ⟨_, _, _, hcalls⟩ :=
          deleteSelection_result env { ed with m_selectionEnd := tco.length } tco
        exact ⟨_, _, keyPressEvent_delete_clamped env ed tco h_tco hcl.1 hcl.2, hcalls,
          fun _ => bracketed_delete _ _ _, fun hn => absurd (Or.inr hcl) hn⟩
      · refine ⟨_, [], keyPressEvent_delete_rejected env ed tco h_tco (by omega), ?_, ?_, ?_⟩
        · simp [keyDown]
        · intro h
          rcases h with h | h
          · exact absurd h hin
          · exact absurd h hcl
        · intro _; rfl
  · by_cases hin : 0 < ed.tickOfXCoord env ev.x ∧ ed.tickOfXCoord env ev.x < tco.length
    · obtain ⟨ed', h, _, _, hcalls⟩ :=
        mousePressEvent_split env ed tco ev _ h_tco h_btn rfl hin.1 hin.2
      exact ⟨ed', _, h, hcalls, fun _ => bracketed_split _ _ _ _, fun hn => absurd hin hn⟩
    · refine ⟨_, [], mousePressEvent_right_outside env ed tco ev h_tco h_btn (by omega),
        ?_, fun h => absurd h hin, fun _ => rfl⟩
      rw [beginSelection_calls]
      simp

/-- C18 on a clip of length 100 with selection `(20, 50)` and a right-button
press at tick 40: both traces are journalled edits. -/
theorem journal_brackets_edits_witness :
    (∃ ed' new,
      keyPressEvent engine48 (editorOf (some (clipOf 300 100 4800)) 20 50) .Key_Delete
        = some ed' ∧
      ed'.calls = [] ++ new ∧ Bracketed new ∧ new.count .addJournalCheckPoint = 1) ∧
    (∃ ed' new,
      mousePressEvent engine48 (editorOf (some (clipOf 300 100 4800)) 20 50)
        ⟨104, 50, .RightButton⟩ = some ed' ∧
      ed'.calls = [] ++ new ∧ Bracketed new ∧ new.count .addJournalCheckPoint = 1) := by
  obtain ⟨⟨e1, n1, h1, c1, b1, _⟩, ⟨e2, n2, h2, c2, b2, _⟩⟩ :=
    journal_brackets_edits engine48 (editorOf (some (clipOf 300 100 4800)) 20 50)
      (clipOf 300 100 4800) ⟨104, 50, .RightButton⟩ rfl rfl
  exact ⟨⟨e1, n1, h1, c1, b1 (Or.inl (by decide))⟩, ⟨e2, n2, h2, c2, b2 (by decide)⟩⟩

/-! ### Frame count and clip length -/

/-- C20, as stated, fails at every zoom level other than 100%: with 192 ticks
per bar and scroll position 0, pixel 130 is mapped back to pixels 17, 33, 65,
260, 520 and 1040 at `m_ppb` 24, 48, 96, 384, 768 and 1536. -/
theorem pixel_tick_round_trip_counterexample :
    xCoordOfTick engine48 { editorOf none 0 0 with m_ppb := 24 }
      (tickOfXCoord engine48 { editorOf none 0 0 with m_ppb := 24 } 130) = 17 ∧
    xCoordOfTick engine48 { editorOf none 0 0 with m_ppb := 48 }
      (tickOfXCoord engine48 { editorOf none 0 0 with m_ppb := 48 } 130) = 33 ∧
    xCoordOfTick engine48 { editorOf none 0 0 with m_ppb := 96 }
      (tickOfXCoord engine48 { editorOf none 0 0 with m_ppb := 96 } 130) = 65 ∧
    xCoordOfTick engine48 { editorOf none 0 0 with m_ppb := 384 }
      (tickOfXCoord engine48 { editorOf none 0 0 with m_ppb := 384 } 130) = 260 ∧
    xCoordOfTick engine48 { editorOf none 0 0 with m_ppb := 768 }
      (tickOfXCoord engine48 { editorOf none 0 0 with m_ppb := 768 } 130) = 520 ∧
    xCoordOfTick engine48 { editorOf none 0 0 with m_ppb := 1536 }
      (tickOfXCoord engine48 { editorOf none 0 0 with m_ppb := 1536 } 130) = 1040 ∧
    engine48.ticksPerBar = 192 := by
  decide

/-- C20, amended: at zoom 100% (`m_ppb = 192`) with 192 ticks per bar, for
every scroll position and every pixel `x`,
`xCoordOfTick(tickOfXCoord(x)) = x`. -/
theorem pixel_tick_round_trip (env : Engine) (ed : SampleEditor) (x : Int)
    (h_tpb : env.ticksPerBar = 192) (h_ppb : ed.m_ppb = 192) :
    ed.xCoordOfTick env (ed.tickOfXCoord env x) = x := by
  unfold xCoordOfTick tickOfXCoord VALUES_WIDTH
  rw [h_tpb, h_ppb]
  have h1 : Int.tdiv (64 * 192) 192 = 64 := by decide
  have h2 : (x - 64 + ed.m_currentPosition - ed.m_currentPosition) * 192 = (x - 64) * 192 := by
    ring
  rw [h1, h2, Int.mul_tdiv_cancel _ (by decide)]
  ring

/-- C20 (amended) at zoom 100% and scroll position 300: pixel 130 is mapped
to tick 366 and back to pixel 130. -/
theorem pixel_tick_round_trip_witness :
    tickOfXCoord engine48 { editorOf none 0 0 with m_currentPosition := 300 } 130 = 366 ∧
    xCoordOfTick engine48 { editorOf none 0 0 with m_currentPosition := 300 }
      (tickOfXCoord engine48 { editorOf none 0 0 with m_currentPosition := 300 } 130) = 130 :=
  ⟨by decide,
    pixel_tick_round_trip engine48 { editorOf none 0 0 with m_currentPosition := 300 } 130
      rfl rfl⟩

/-! ### Zoom factors -/

/-- The key handler does not assign the zoom factors. -/
theorem keyPressEvent_zoom (env : Engine) (ed ed' : SampleEditor) (key : Key)
    (h : keyPressEvent env ed key = some ed') :
    ed'.m_ppb = ed.m_ppb ∧ ed'.m_y_delta = ed.m_y_delta := by
  cases key
  case Key_Delete =>
    unfold keyPressEvent at h
    cases htco : ed.m_tco with
    | none => simp [htco] at h
    | some tco =>
      simp only [htco, Option.some.injEq] at h
      subst h
      split_ifs <;> simp [keyDown, deleteSelection, log]
  all_goals
    simp only [keyPressEvent, Option.some.injEq] at h
    subst h
    simp [keyDown, log]

/-- The press handler does not assign the zoom factors. -/
theorem mousePressEvent_zoom (env : Engine) (ed ed' : SampleEditor) (ev : QMouseEvent)
    (h : mousePressEvent env ed ev = some ed') :
    ed'.m_ppb = ed.m_ppb ∧ ed'.m_y_delta = ed.m_y_delta := by
  have hb : ∀ (k : SampleEditor) (t : Int),
      (beginSelection k t).m_ppb = k.m_ppb ∧ (beginSelection k t).m_y_delta = k.m_y_delta := by
    intro k t
    unfold beginSelection
    split <;> exact ⟨rfl, rfl⟩
  have hk : ∀ (a k : SampleEditor) (t : Int), knife env a t = some k →
      k.m_ppb = a.m_ppb ∧ k.m_y_delta = a.m_y_delta := by
    intro a k t hkn
    unfold knife at hkn
    by_cases h0 : t > 0
    · cases htco : a.m_tco with
      | none => simp [h0, htco] at hkn
      | some tco =>
        by_cases h1 : t < tco.length
        · simp only [h0, htco, h1, if_true, Option.some.injEq] at hkn
          subst hkn
          simp [splitTCO, log]
        · simp only [h0, htco, h1, if_true, if_false, Option.some.injEq] at hkn
          subst hkn
          simp
    · simp only [h0, if_false, Option.some.injEq] at hkn
      subst hkn
      simp
  unfold mousePressEvent at h
  simp only [Option.map_eq_some'] at h
  obtain ⟨k, hk1, hk2⟩ := h
  subst hk2
  obtain ⟨b1, b2⟩ := hb k (tickOfXCoord env { ed with m_mouseStartX := ev.x } ev.x)
  rw [b1, b2]
  cases hbtn : ev.button <;> simp only [hbtn] at hk1
  · simp at hk1; subst hk1; simp
  · simp at hk1
    obtain ⟨k1, k2⟩ := hk _ _ _ hk1
    rw [k1, k2]; simp
  · simp at hk1; subst hk1; simp

/-- The handlers that always return do not assign the zoom factors. -/
theorem total_handlers_zoom (env : Engine) (ed : SampleEditor) (ev : QMouseEvent)
    (song : Transport) (new_tco : Option SampleTCO) (pos height scrollLevel : Int) :
    ((mouseMoveEvent env ed ev).m_ppb = ed.m_ppb ∧
      (mouseMoveEvent env ed ev).m_y_delta = ed.m_y_delta) ∧
    ((mouseReleaseEvent ed ev).m_ppb = ed.m_ppb ∧
      (mouseReleaseEvent ed ev).m_y_delta = ed.m_y_delta) ∧
    ((play song ed).m_ppb = ed.m_ppb ∧ (play song ed).m_y_delta = ed.m_y_delta) ∧
    ((stop song ed).m_ppb = ed.m_ppb ∧ (stop song ed).m_y_delta = ed.m_y_delta) ∧
    ((setCurrentTCO ed new_tco).m_ppb = ed.m_ppb ∧
      (setCurrentTCO ed new_tco).m_y_delta = ed.m_y_delta) ∧
    ((horScrolled ed pos).m_ppb = ed.m_ppb ∧ (horScrolled ed pos).m_y_delta = ed.m_y_delta) ∧
    ((resizeEvent height scrollLevel ed).m_ppb = ed.m_ppb ∧
      (resizeEvent height scrollLevel ed).m_y_delta = ed.m_y_delta) := by
  refine ⟨?_, ?_, ?_, ?_, ⟨rfl, rfl⟩, ⟨rfl, rfl⟩, ⟨rfl, rfl⟩⟩
  · unfold mouseMoveEvent
    cases ed.validTCO
    · simp [log]
    · by_cases hy : ev.y > TOP_MARGIN
      · cases ha : ed.m_action <;> cases hl : ed.m_mouseDownLeft <;> simp [log, hy, ha, hl]
        split <;> simp
      · simp [log, hy]
  · unfold mouseReleaseEvent
    cases ev.button <;> simp [log]
  · unfold play
    cases ed.validTCO <;> cases song.isStopped <;> simp [log]
  · unfold stop
    cases ed.m_tco with
    | none => simp
    | some tco => simp only []; split <;> simp [log]

/-- The recording slots do not assign the zoom factors. -/
theorem record_zoom (song : Transport) (ed : SampleEditor) :
    ((record song ed).m_ppb = ed.m_ppb ∧ (record song ed).m_y_delta = ed.m_y_delta) ∧
    ((recordAccompany song ed).m_ppb = ed.m_ppb ∧
      (recordAccompany song ed).m_y_delta = ed.m_y_delta) := by
  have hstop : ∀ a : SampleEditor,
      (stop song a).m_ppb = a.m_ppb ∧ (stop song a).m_y_delta = a.m_y_delta := by
    intro a
    unfold stop
    cases a.m_tco with
    | none => simp
    | some tco => simp only []; split <;> simp [log]
  have hpre : ∀ a : SampleEditor,
      (if song.isPlaying = true then stop song a else a).m_ppb = a.m_ppb ∧
      (if song.isPlaying = true then stop song a else a).m_y_delta = a.m_y_delta := by
    intro a
    split
    · exact hstop a
    · exact ⟨rfl, rfl⟩
  obtain ⟨p1, p2⟩ := hpre ed
  constructor
  · unfold record
    simp only []
    generalize (if song.isPlaying = true then stop song ed else ed) = a at p1 p2 ⊢
    rw [← p1, ← p2]
    cases hr : a.m_recording
    · cases ht : a.m_tco <;> simp [startRecording, log]
    · simp
  · unfold recordAccompany
    simp only []
    generalize (if song.isPlaying = true then stop song ed else ed) = a at p1 p2 ⊢
    rw [← p1, ← p2]
    cases hr : a.m_recording
    · cases ht : a.m_tco
      · simp
      · simp only [Bool.false_eq_true, if_false]
        split <;> simp [startRecording, log]
    · simp

/-- The slot `reverse` and the double click do not assign the zoom factors. -/
theorem reverse_doubleClick_zoom (ed ed' : SampleEditor) (framesPerTick : FramesPerTick)
    (loadFile : String → SampleBuffer) (af : String) :
    (reverse ed = some ed' → ed'.m_ppb = ed.m_ppb ∧ ed'.m_y_delta = ed.m_y_delta) ∧
    (mouseDoubleClickEvent framesPerTick loadFile ed af = some ed' →
      ed'.m_ppb = ed.m_ppb ∧ ed'.m_y_delta = ed.m_y_delta) := by
  constructor
  · intro h
    unfold reverse at h
    cases htco : ed.m_tco with
    | none => simp [htco] at h
    | some tco =>
      simp only [htco, Option.some.injEq] at h
      subst h
      simp [log]
  · intro h
    unfold mouseDoubleClickEvent at h
    cases htco : ed.m_tco with
    | none => simp [htco] at h
    | some tco =>
      simp only [htco] at h
      split_ifs at h <;> simp only [Option.some.injEq] at h <;> subst h <;> simp [log]

/-- The slot `zoomingXChanged` at a zoom level whose product is positive. -/
theorem zoomingXChanged_eq (a : SampleEditor) (level : Nat × Nat)
    (h1 : m_zoomXLevels[a.m_zoomingXModel]? = some level) (h2 : 0 < ppbOfLevel level) :
    zoomingXChanged a = some
      { a with
        m_ppb := ppbOfLevel level
        calls := a.calls ++ [.setPixelsPerBar (ppbOfLevel level), .update] } := by
  simp [zoomingXChanged, h1, h2, log]

/-- The values `zoomingXChanged` stores for the seven zoom levels; the
assertion holds for each. -/
theorem zoomingXChanged_value (ed : SampleEditor) (i : Fin 7) :
    ∃ ed', zoomingXChanged { ed with m_zoomingXModel := i.val } = some ed' ∧
      ([24, 48, 96, 192, 384, 768, 1536] : List Int)[i.val]? = some ed'.m_ppb ∧
      ed'.m_y_delta = ed.m_y_delta := by
  have key : ∃ level, m_zoomXLevels[i.val]? = some level ∧ 0 < ppbOfLevel level ∧
      ([24, 48, 96, 192, 384, 768, 1536] : List Int)[i.val]? = some (ppbOfLevel level) := by
    fin_cases i <;> exact ⟨_, rfl, by decide, rfl⟩
  obtain ⟨level, h1, h2, h3⟩ := key
  exact ⟨_, zoomingXChanged_eq { ed with m_zoomingXModel := i.val } level h1 h2, h3, rfl⟩

/-- The slot `zoomingYChanged` at a percentage entry whose factor is
positive. -/
theorem zoomingYChanged_percent (a : SampleEditor) (height scrollLevel percent : Int)
    (h1 : zoomingYEntries[a.m_zoomingYModel]? = some (some percent))
    (h2 : 0 < yDeltaOfPercent percent) :
    zoomingYChanged height scrollLevel a = some
      (resizeEvent height scrollLevel
        { a with m_y_auto := false, m_y_delta := yDeltaOfPercent percent }) := by
  simp [zoomingYChanged, h1, h2]

/-- The slot `zoomingYChanged` at the entry "Auto" when the factor is
positive. -/
theorem zoomingYChanged_auto (a : SampleEditor) (height scrollLevel : Int)
    (h1 : zoomingYEntries[a.m_zoomingYModel]? = some none) (h2 : 0 < a.m_y_delta) :
    zoomingYChanged height scrollLevel a = some
      (resizeEvent height scrollLevel { a with m_y_auto := true }) := by
  simp [zoomingYChanged, h1, h2]

/-- The values `zoomingYChanged` stores for the eight entries; the assertion
holds for each when the factor was positive before. -/
theorem zoomingYChanged_value (ed : SampleEditor) (j : Fin 8) (height scrollLevel : Int)
    (h : 0 < ed.m_y_delta) :
    ∃ ed', zoomingYChanged height scrollLevel { ed with m_zoomingYModel := j.val } = some ed' ∧
      (j.val = 0 → ed'.m_y_auto = true ∧ ed'.m_y_delta = ed.m_y_delta) ∧
      (j.val ≠ 0 → ed'.m_y_auto = false ∧
        ([1, 3, 6, 12, 24, 48, 96] : List Int)[j.val - 1]? = some ed'.m_y_delta) ∧
      ed'.m_ppb = ed.m_ppb := by
  by_cases hj : j.val = 0
  · have h1 : zoomingYEntries[j.val]? = some none := by rw [hj]; rfl
    exact ⟨_, zoomingYChanged_auto { ed with m_zoomingYModel := j.val } height scrollLevel h1 h,
      fun _ => ⟨rfl, rfl⟩, fun hne => absurd hj hne, rfl⟩
  · have key : ∃ percent, zoomingYEntries[j.val]? = some (some percent) ∧
        0 < yDeltaOfPercent percent ∧
        ([1, 3, 6, 12, 24, 48, 96] : List Int)[j.val - 1]? = some (yDeltaOfPercent percent) := by
      fin_cases j
      · exact absurd rfl hj
      all_goals exact ⟨_, rfl, by decide, rfl⟩
    obtain ⟨percent, h1, h2, h3⟩ := key
    exact ⟨_, zoomingYChanged_percent { ed with m_zoomingYModel := j.val } height scrollLevel
        percent h1 h2,
      fun h0 => absurd h0 hj, fun _ => ⟨rfl, h3⟩, rfl⟩

/-- A zoom slot that returns leaves its factor positive and does not assign the
other one. -/
theorem zoom_slots_some (a ed' : SampleEditor) (height scrollLevel : Int) :
    (zoomingXChanged a = some ed' → 0 < ed'.m_ppb ∧ ed'.m_y_delta = a.m_y_delta) ∧
    (zoomingYChanged height scrollLevel a = some ed' →
      0 < ed'.m_y_delta ∧ ed'.m_ppb = a.m_ppb) := by
  constructor
  · intro h
    unfold zoomingXChanged at h
    cases hl : m_zoomXLevels[a.m_zoomingXModel]? with
    | none => simp [hl] at h
    | some level =>
      simp only [hl] at h
      split_ifs at h with hpos
      simp only [Option.some.injEq] at h
      subst h
      exact ⟨hpos, rfl⟩
  · intro h
    unfold zoomingYChanged at h
    cases hl : zoomingYEntries[a.m_zoomingYModel]? with
    | none => simp [hl] at h
    | some zfac =>
      simp only [hl] at h
      split_ifs at h with hpos
      simp only [Option.some.injEq] at h
      subst h
      exact ⟨hpos, rfl⟩

/-- Every event that is handled keeps both zoom factors positive. -/
theorem handle_zoom (env : Engine) (ed ed' : SampleEditor) (event : Event)
    (h : handle env ed event = some ed') (hpos : 0 < ed.m_ppb ∧ 0 < ed.m_y_delta) :
    0 < ed'.m_ppb ∧ 0 < ed'.m_y_delta := by
  have keep : ed'.m_ppb = ed.m_ppb ∧ ed'.m_y_delta = ed.m_y_delta →
      0 < ed'.m_ppb ∧ 0 < ed'.m_y_delta := by
    intro hk; rw [hk.1, hk.2]; exact hpos
  cases event with
  | setCurrentTCO new_tco =>
    simp only [handle, Option.some.injEq] at h; subst h; exact hpos
  | keyPressEvent key => exact keep (keyPressEvent_zoom env ed ed' key h)
  | mousePressEvent ev => exact keep (mousePressEvent_zoom env ed ed' ev h)
  | mouseMoveEvent ev =>
    simp only [handle, Option.some.injEq] at h; subst h
    exact keep (total_handlers_zoom env ed ev ⟨false, false, .song⟩ none 0 0 0).1
  | mouseReleaseEvent ev =>
    simp only [handle, Option.some.injEq] at h; subst h
    exact keep (total_handlers_zoom env ed ev ⟨false, false, .song⟩ none 0 0 0).2.1
  | mouseDoubleClickEvent framesPerTick loaded af =>
    exact keep ((reverse_doubleClick_zoom ed ed' framesPerTick (fun _ => loaded) af).2 h)
  | reverse =>
    exact keep ((reverse_doubleClick_zoom ed ed' ⟨1, 1⟩ (fun _ => ⟨[], 0, false, ""⟩) "").1 h)
  | play song =>
    simp only [handle, Option.some.injEq] at h; subst h
    exact keep (total_handlers_zoom env ed ⟨0, 0, .NoButton⟩ song none 0 0 0).2.2.1
  | stop song =>
    simp only [handle, Option.some.injEq] at h; subst h
    exact keep (total_handlers_zoom env ed ⟨0, 0, .NoButton⟩ song none 0 0 0).2.2.2.1
  | record song =>
    simp only [handle, Option.some.injEq] at h; subst h
    exact keep (record_zoom song ed).1
  | recordAccompany song =>
    simp only [handle, Option.some.injEq] at h; subst h
    exact keep (record_zoom song ed).2
  | horScrolled new_pos =>
    simp only [handle, Option.some.injEq] at h; subst h; exact hpos
  | resizeEvent height scrollLevel =>
    simp only [handle, Option.some.injEq] at h; subst h; exact hpos
  | zoomX index =>
    obtain ⟨h1, h2⟩ := (zoom_slots_some { ed with m_zoomingXModel := index.val } ed' 0 0).1 h
    exact ⟨h1, by rw [h2]; exact hpos.2⟩
  | zoomY index height scrollLevel =>
    obtain ⟨h1, h2⟩ :=
      (zoom_slots_some { ed with m_zoomingYModel := index.val } ed' height scrollLevel).2 h
    exact ⟨by rw [h2]; exact hpos.1, h1⟩

/-- Every sequence of events that is handled keeps both zoom factors
positive. -/
theorem run_zoom (env : Engine) (events : List Event) :
    ∀ ed ed' : SampleEditor, run env ed events = some ed' →
      0 < ed.m_ppb ∧ 0 < ed.m_y_delta → 0 < ed'.m_ppb ∧ 0 < ed'.m_y_delta := by
  induction events with
  | nil =>
    intro ed ed' h hpos
    simp only [run, Option.some.injEq] at h
    subst h
    exact hpos
  | cons event rest ih =>
    intro ed ed' h hpos
    simp only [run, Option.bind_eq_some] at h
    obtain ⟨mid, h1, h2⟩ := h
    exact ih mid ed' h2 (handle_zoom env ed mid event h1 hpos)

/-- C22: in every state reached from the constructed editor both zoom factors
are strictly positive, so `m_ppb` is not zero where it is a divisor. In such a
state `zoomingXChanged` returns for each of the seven zoom levels, so its
assertion holds, and stores 24, 48, 96, 192, 384, 768, 1536; `zoomingYChanged`
returns for each of the eight entries, so its assertion holds, keeps
`m_y_delta` for "Auto" and stores 1, 3, 6, 12, 24, 48, 96 for the
percentages. The constructed editor has `m_ppb = 192` and `m_y_delta = 6`. -/
theorem zoom_factors_positive (env : Engine) (ed : SampleEditor) (h : Reachable env ed) :
    0 < ed.m_ppb ∧ 0 < ed.m_y_delta ∧ ed.m_ppb ≠ 0 ∧
    (∀ i : Fin 7, ∃ ed', handle env ed (.zoomX i) = some ed' ∧
      ([24, 48, 96, 192, 384, 768, 1536] : List Int)[i.val]? = some ed'.m_ppb ∧
      ed'.m_y_delta = ed.m_y_delta) ∧
    (∀ (j : Fin 8) (height scrollLevel : Int),
      ∃ ed', handle env ed (.zoomY j height scrollLevel) = some ed' ∧
        (j.val = 0 → ed'.m_y_auto = true ∧ ed'.m_y_delta = ed.m_y_delta) ∧
        (j.val ≠ 0 → ed'.m_y_auto = false ∧
          ([1, 3, 6, 12, 24, 48, 96] : List Int)[j.val - 1]? = some ed'.m_y_delta) ∧
        ed'.m_ppb = ed.m_ppb) ∧
    (∀ ed0, Constructed ed0 → ed0.m_ppb = 192 ∧ ed0.m_y_delta = 6) := by
  obtain ⟨ed0, events, hc, hrun⟩ := h
  obtain ⟨_, _, hppb, hyd, _⟩ := hc
  have h0 : 0 < ed0.m_ppb ∧ 0 < ed0.m_y_delta := by
    rw [hppb, hyd]; exact ⟨by decide, by decide⟩
  obtain ⟨h1, h2⟩ := run_zoom env events ed0 ed hrun h0
  refine ⟨h1, h2, ne_of_gt h1, ?_, ?_, ?_⟩
  · intro i
    exact zoomingXChanged_value ed i
  · intro j height scrollLevel
    exact zoomingYChanged_value ed j height scrollLevel h2
  · intro a ha
    obtain ⟨_, _, ha1, ha2, _⟩ := ha
    rw [ha1, ha2]
    exact ⟨by decide, by decide⟩

/-- C22 on the state reached by selecting the horizontal zoom 12.5% and the
vertical zoom 25%: the factors are 24 and 1. -/
theorem zoom_factors_positive_witness :
    ∃ ed, run engine48 (editorOf none 0 0) [.zoomX 0, .zoomY 1 480 0] = some ed ∧
      ed.m_ppb = 24 ∧ ed.m_y_delta = 1 ∧ 0 < ed.m_ppb ∧ 0 < ed.m_y_delta ∧ ed.m_ppb ≠ 0 := by
  have hr : ∃ ed, run engine48 (editorOf none 0 0) [.zoomX 0, .zoomY 1 480 0] = some ed ∧
      ed.m_ppb = 24 ∧ ed.m_y_delta = 1 := ⟨_, rfl, by decide, by decide⟩
  obtain ⟨ed, hed, hp, hy⟩ := hr
  have hc : Constructed (editorOf none 0 0) := by
    unfold Constructed
    decide
  obtain ⟨h1, h2, h3, _⟩ := zoom_factors_positive engine48 ed ⟨_, _, hc, hed⟩
  exact ⟨ed, hed, hp, hy, h1, h2, h3⟩

/-! ### The Delete key and the vertical scroll bar -/

/-- C21, the code at the failing input: an editor with the vertical zoom 100%
in a widget of height 20 has the vertical scroll bar range `[-1, 1]` with
value 0. The Delete key, whose case has no `break` and runs into the
`Key_Down` case, moves the value to 1, both when the selection `(20, 50)` is
deleted from the clip of length 100 and when the selection `(40, 40)` is
empty. -/
theorem delete_key_moves_scroll_bar :
    (run engine48 (editorOf none 20 50)
        [.zoomY 3 20 0, .setCurrentTCO (some (clipOf 300 100 4800)), .resizeEvent 20 0]).map
      (fun ed => ed.m_topBottomScroll) = some ⟨-1, 1, 0⟩ ∧
    (run engine48 (editorOf none 20 50)
        [.zoomY 3 20 0, .setCurrentTCO (some (clipOf 300 100 4800)), .resizeEvent 20 0,
          .keyPressEvent .Key_Delete]).map
      (fun ed => (ed.m_topBottomScroll.value, ed.m_tco.map (fun c => c.length))) =
        some (1, some 70) ∧
    (run engine48 (editorOf none 40 40)
        [.zoomY 3 20 0, .setCurrentTCO (some (clipOf 300 100 4800)), .resizeEvent 20 0,
          .keyPressEvent .Key_Delete]).map
      (fun ed => (ed.m_topBottomScroll.value, ed.m_tco.map (fun c => c.length))) =
        some (1, some 100) := by
  decide

end Lmms.SampleEditor
